import Mathlib

/-!
Shallow embedding of the HTML-to-legislation extraction engine of the
Ukrainian-law-mcp repository, together with proofs of the specified
properties.

The embedding covers the two parser variants:

* Grammar A (`Rada` namespace): the paragraph-stream parser of
  `scripts/lib/parser.ts` for zakon.rada.gov.ua print pages
  (`parseLawPrintHtml`, `buildProvision`, `extractDefinitions`, …).
* Grammar B (`Sejm` namespace): the container-based parser of
  `scripts/lib/parser.ts` for the Sejm ELI API
  (`parseUkrainianHtml`, `findChapterHeading`, `extractDefinitions`, `stripHtml`).

Modelling conventions:

* JavaScript strings are modelled as `List Char` (code points).  All the
  relevant JavaScript regular expressions operate on BMP text, where the
  UTF-16 length used by `String.prototype.length` coincides with the code
  point count.
* Each JavaScript regular expression is hand-compiled to a deterministic
  scanner that realises the backtracking semantics of the original pattern
  (greedy/lazy quantifiers, alternation order, lookahead).  Scanners take a
  fuel argument so that every definition is structurally recursive; the
  public wrappers instantiate the fuel with the input length, which is
  always sufficient because every match consumes at least one character.
* Fallible operations (`String.fromCodePoint` throwing on code points above
  0x10FFFF, the missing-container error of `extractArticleArea`) are
  modelled with `Except Unit`.
-/

abbrev Str := List Char

/-- Decidable equality for `Except`, used to evaluate parse results on
concrete inputs. -/
instance {e : Type} {a : Type} [DecidableEq e] [DecidableEq a] :
    DecidableEq (Except e a) := fun x y =>
  match x, y with
  | .ok u, .ok v =>
    if h : u = v then .isTrue (by rw [h]) else .isFalse (by simp [h])
  | .error u, .error v =>
    if h : u = v then .isTrue (by rw [h]) else .isFalse (by simp [h])
  | .ok _, .error _ => .isFalse (by simp)
  | .error _, .ok _ => .isFalse (by simp)

namespace Js

/-- Character test for the JavaScript `\s` class (WhiteSpace ∪ LineTerminator). -/
def isWs (c : Char) : Bool :=
  c.toNat = 9 || c.toNat = 10 || c.toNat = 11 || c.toNat = 12 || c.toNat = 13 ||
  c.toNat = 32 || c.toNat = 160 || c.toNat = 0x1680 ||
  (0x2000 ≤ c.toNat && c.toNat ≤ 0x200a) ||
  c.toNat = 0x2028 || c.toNat = 0x2029 || c.toNat = 0x202f || c.toNat = 0x205f ||
  c.toNat = 0x3000 || c.toNat = 0xfeff

/-- Character test for the JavaScript `.`-excluded line terminators. -/
def isLineTerm (c : Char) : Bool :=
  c.toNat = 10 || c.toNat = 13 || c.toNat = 0x2028 || c.toNat = 0x2029

/-- ASCII decimal digit, the JavaScript `\d` class. -/
def isDigit (c : Char) : Bool := 48 ≤ c.toNat && c.toNat ≤ 57

/-- ASCII lowercase letter. -/
def isLower (c : Char) : Bool := 97 ≤ c.toNat && c.toNat ≤ 122

/-- ASCII hexadecimal digit. -/
def isHexDigit (c : Char) : Bool :=
  isDigit c || (97 ≤ c.toNat && c.toNat ≤ 102) || (65 ≤ c.toNat && c.toNat ≤ 70)

/-- ASCII letter (either case), the `[a-zA-Z]` class. -/
def isAsciiLetter (c : Char) : Bool :=
  (97 ≤ c.toNat && c.toNat ≤ 122) || (65 ≤ c.toNat && c.toNat ≤ 90)

/-- The JavaScript `\w` word class used by the `\b` boundary assertion. -/
def isWord (c : Char) : Bool :=
  isAsciiLetter c || isDigit c || c = '_'

/-- Case canonicalisation used for `i`-flagged regex matching, restricted to
the alphabets appearing in the source patterns: ASCII letters, Cyrillic
(including the Ukrainian letters Є І Ї Ґ) and the Polish letter Ł. -/
def canon (c : Char) : Char :=
  if 65 ≤ c.toNat ∧ c.toNat ≤ 90 then Char.ofNat (c.toNat + 32)
  else if 0x410 ≤ c.toNat ∧ c.toNat ≤ 0x42f then Char.ofNat (c.toNat + 32)
  else if 0x400 ≤ c.toNat ∧ c.toNat ≤ 0x40f then Char.ofNat (c.toNat + 80)
  else if c.toNat = 0x141 then Char.ofNat 0x142
  else if c.toNat = 0x490 then Char.ofNat 0x491
  else c

/-- Drop an exact literal from the head of the input, returning the rest. -/
def dropLit : Str → Str → Option Str
  | [], s => some s
  | _ :: _, [] => none
  | p :: ps, c :: cs => if c = p then dropLit ps cs else none

/-- Drop a literal case-insensitively (both sides canonicalised). -/
def dropLitCI : Str → Str → Option Str
  | [], s => some s
  | _ :: _, [] => none
  | p :: ps, c :: cs => if canon c = canon p then dropLitCI ps cs else none

/-- Case-sensitive substring test (`String.prototype.includes`). -/
def hasSub (pat : Str) : Str → Bool
  | [] => pat.isEmpty
  | s@(_ :: rest) => (dropLit pat s).isSome || hasSub pat rest

/-- Case-insensitive substring test (an `i`-flagged regex literal). -/
def hasSubCI (pat : Str) : Str → Bool
  | [] => pat.isEmpty
  | s@(_ :: rest) => (dropLitCI pat s).isSome || hasSubCI pat rest

/-- Index of the first occurrence of a literal (`String.prototype.indexOf`). -/
def idxOfSub (pat : Str) : Str → Option Nat
  | [] => if pat.isEmpty then some 0 else none
  | s@(_ :: rest) =>
    if (dropLit pat s).isSome then some 0
    else (idxOfSub pat rest).map (· + 1)

/-- Maximal run satisfying a predicate, returned with the remainder. -/
def spanP (p : Char → Bool) (s : Str) : Str × Str := (s.takeWhile p, s.dropWhile p)

/-- Trim (JavaScript `String.prototype.trim`, whose character set equals `\s`). -/
def trim (s : Str) : Str := ((s.dropWhile isWs).reverse.dropWhile isWs).reverse

/-- Clamping, order-normalising slice (`String.prototype.substring`). -/
def substring (s : Str) (a b : Nat) : Str :=
  let la := min a s.length
  let lb := min b s.length
  (s.take (max la lb)).drop (min la lb)

/-- Tail slice (`String.prototype.substring` with one argument). -/
def substringFrom (s : Str) (a : Nat) : Str := s.drop (min a s.length)

/-- Generic global-replace scanner (`String.prototype.replace` with `g`):
the head matcher returns the remainder after the match together with the
replacement text; every head matcher used consumes at least one character. -/
def scanReplace (tryHead : Str → Option (Str × Str)) : Nat → Str → Str
  | 0, _ => []
  | _, [] => []
  | fuel + 1, c :: rest =>
    match tryHead (c :: rest) with
    | some (after, repl) => repl ++ scanReplace tryHead fuel after
    | none => c :: scanReplace tryHead fuel rest

/-- Fallible global-replace scanner for replacement callbacks that can throw. -/
def scanReplaceE (tryHead : Str → Option (Str × Except Unit Str)) :
    Nat → Str → Except Unit Str
  | 0, _ => .ok []
  | _, [] => .ok []
  | fuel + 1, c :: rest =>
    match tryHead (c :: rest) with
    | some (_, .error e) => .error e
    | some (after, .ok repl) => (scanReplaceE tryHead fuel after).map (repl ++ ·)
    | none => (scanReplaceE tryHead fuel rest).map (c :: ·)

/-- First-match search (`RegExp.prototype.exec` without `g`): returns the
match index and the matcher payload. -/
def findFirst (tryHead : Str → Option α) : Nat → Str → Nat → Option (Nat × α)
  | 0, _, _ => none
  | _, [], _ => none
  | fuel + 1, s@(_ :: rest), idx =>
    match tryHead s with
    | some a => some (idx, a)
    | none => findFirst tryHead fuel rest (idx + 1)

/-- All-matches scan (`String.prototype.matchAll`): returns match index,
match length and payload for each non-overlapping leftmost match. -/
def matchAll (tryHead : Str → Option (Str × α)) :
    Nat → Str → Nat → List (Nat × Nat × α)
  | 0, _, _ => []
  | _, [], _ => []
  | fuel + 1, s@(_ :: rest), idx =>
    match tryHead s with
    | some (after, a) =>
      let len := s.length - after.length
      (idx, len, a) :: matchAll tryHead fuel after (idx + len)
    | none => matchAll tryHead fuel rest (idx + 1)

/-- Replace only the first match, splicing in a constant replacement. -/
def replaceFirst (tryHead : Str → Option Str) (repl : Str) : Nat → Str → Str
  | 0, _ => []
  | _, [] => []
  | fuel + 1, c :: rest =>
    match tryHead (c :: rest) with
    | some after => repl ++ after
    | none => c :: replaceFirst tryHead repl fuel rest

/-- Single-character global substitution. -/
def mapChars (f : Char → Char) (s : Str) : Str := s.map f

/-- Digits of a decimal run interpreted as a natural number. -/
def decDigitsToNat (s : Str) : Nat :=
  s.foldl (fun acc c => acc * 10 + (c.toNat - 48)) 0

/-- Digits of a hexadecimal run interpreted as a natural number. -/
def hexDigitToNat (c : Char) : Nat :=
  if isDigit c then c.toNat - 48
  else if 97 ≤ c.toNat ∧ c.toNat ≤ 102 then c.toNat - 97 + 10
  else c.toNat - 65 + 10

/-- Hexadecimal run interpreted as a natural number. -/
def hexDigitsToNat (s : Str) : Nat :=
  s.foldl (fun acc c => acc * 16 + hexDigitToNat c) 0

end Js

/-- Provision record (`ParsedProvision` in both parser variants). -/
structure ParsedProvision where
  provision_ref : Str
  chapter : Option Str := none
  «section» : Str
  title : Str
  content : Str
  deriving DecidableEq, Repr

/-- Definition record (`ParsedDefinition`); both parsers always assign the
source provision, so the field is modelled as mandatory. -/
structure ParsedDefinition where
  term : Str
  definition : Str
  source_provision : Str
  deriving DecidableEq, Repr

/-- The provisions/definitions portion of `ParsedAct`.  The metadata fields
(titles, status, dates, url, description) are copied from caller-supplied
configuration or resolved by helpers that no verified property concerns,
and are omitted from the embedding. -/
structure ParsedActContent where
  provisions : List ParsedProvision
  definitions : List ParsedDefinition
  deriving DecidableEq, Repr

namespace Rada

open Js

/-- Caller-supplied configuration (`TargetLaw`); only the optional article
allow-list participates in parsing. -/
structure TargetLaw where
  articleFilter : Option (List Str) := none

/-- Parse options (`ParseOptions`). -/
structure ParseOptions where
  extractDefinitions? : Option Bool := none

/-- In-progress article of the Grammar A stream (`WorkingArticle`). -/
structure WorkingArticle where
  «section» : Str
  heading : Str
  lines : List Str
  deriving DecidableEq, Repr

/-- The fixed named-entity mapping (`ENTITY_MAP`). -/
def entityMap (name : Str) : Option Str :=
  if name = "nbsp".data then some " ".data
  else if name = "amp".data then some "&".data
  else if name = "lt".data then some "<".data
  else if name = "gt".data then some ">".data
  else if name = "quot".data then some "\"".data
  else if name = "apos".data then some [Char.ofNat 39]
  else if name = "laquo".data then some "«".data
  else if name = "raquo".data then some "»".data
  else if name = "ndash".data then some "–".data
  else if name = "mdash".data then some "—".data
  else if name = "shy".data then some []
  else none

/-- Head matcher for `&([a-zA-Z]+);`: unmapped names are reproduced
literally (`ENTITY_MAP[name] ?? &name;`). -/
def tryNamedEntity (s : Str) : Option (Str × Str) :=
  match s with
  | '&' :: r =>
    let (name, r1) := spanP isAsciiLetter r
    match name, r1 with
    | [], _ => none
    | _, ';' :: r2 =>
      some (r2, (entityMap name).getD ('&' :: name ++ [';']))
    | _, _ => none
  | _ => none

/-- JavaScript `String.fromCodePoint`: throws on code points above 0x10FFFF.
Surrogate code points are accepted by JavaScript; they do not occur in any
input considered here. -/
def fromCodePoint (n : Nat) : Except Unit Char :=
  if n > 0x10FFFF then .error () else .ok (Char.ofNat n)

/-- Head matcher for `&#(\d+);` with the (ineffective) `Number.isFinite`
guard: `parseInt` of a digit run is always finite, so the replacement is
`String.fromCodePoint`, which throws beyond 0x10FFFF. -/
def tryDecEntity (s : Str) : Option (Str × Except Unit Str) :=
  match s with
  | '&' :: '#' :: r =>
    let (ds, r1) := spanP isDigit r
    match ds, r1 with
    | [], _ => none
    | _, ';' :: r2 => some (r2, (fromCodePoint (decDigitsToNat ds)).map ([·]))
    | _, _ => none
  | _ => none

/-- Head matcher for `&#x([0-9a-fA-F]+);` (lowercase `x` only, no `i` flag). -/
def tryHexEntity (s : Str) : Option (Str × Except Unit Str) :=
  match s with
  | '&' :: '#' :: 'x' :: r =>
    let (ds, r1) := spanP isHexDigit r
    match ds, r1 with
    | [], _ => none
    | _, ';' :: r2 => some (r2, (fromCodePoint (hexDigitsToNat ds)).map ([·]))
    | _, _ => none
  | _ => none

/-- Entity decoder (`decodeHtmlEntities`): named entities, then decimal
character references, then hexadecimal ones; numeric references beyond the
Unicode range make `String.fromCodePoint` throw. -/
def decodeHtmlEntities (text : Str) : Except Unit Str := do
  let t1 := scanReplace tryNamedEntity (text.length + 1) text
  let t2 ← scanReplaceE tryDecEntity (t1.length + 1) t1
  scanReplaceE tryHexEntity (t2.length + 1) t2

/-- Head matcher for `<br\s*\/?>` (case-insensitive). -/
def tryBrTag (s : Str) : Option (Str × Str) := do
  let r ← dropLitCI "<br".data s
  let (_, r1) := spanP isWs r
  match r1 with
  | '>' :: r2 => some (r2, "\n".data)
  | '/' :: '>' :: r2 => some (r2, "\n".data)
  | _ => none

/-- Head matcher for `<[^>]+>`. -/
def tryAnyTag (s : Str) : Option (Str × Str) :=
  match s with
  | '<' :: r =>
    let (inner, r1) := spanP (· ≠ '>') r
    match inner, r1 with
    | [], _ => none
    | _, '>' :: r2 => some (r2, " ".data)
    | _, _ => none
  | _ => none

/-- Space or horizontal tab, the `[ \t]` class. -/
def isSpTab (c : Char) : Bool := c = ' ' || c = '\t'

/-- Head matcher for `[ \t]+\n`. -/
def trySpTabNl (s : Str) : Option (Str × Str) :=
  let (run, r1) := spanP isSpTab s
  match run, r1 with
  | [], _ => none
  | _, '\n' :: r2 => some (r2, "\n".data)
  | _, _ => none

/-- Head matcher for `\n[ \t]+`. -/
def tryNlSpTab (s : Str) : Option (Str × Str) :=
  match s with
  | '\n' :: r =>
    let (run, r2) := spanP isSpTab r
    if run.isEmpty then none else some (r2, "\n".data)
  | _ => none

/-- Head matcher for `[ \t]{2,}`. -/
def trySpTabRun (s : Str) : Option (Str × Str) :=
  let (run, r1) := spanP isSpTab s
  if run.length ≥ 2 then some (r1, " ".data) else none

/-- Head matcher for `\n{3,}`. -/
def tryNlRun (s : Str) : Option (Str × Str) :=
  let (run, r1) := spanP (· = '\n') s
  if run.length ≥ 3 then some (r1, "\n\n".data) else none

/-- Markup flattening (`htmlToText`): break tags to newlines, tags to
spaces, NBSP to space, horizontal-whitespace tidying, trim, then entity
decoding (which can throw on out-of-range numeric references). -/
def htmlToText (html : Str) : Except Unit Str :=
  let t := scanReplace tryBrTag (html.length + 1) html
  let t := scanReplace tryAnyTag (t.length + 1) t
  let t := mapChars (fun c => if c.toNat = 160 then ' ' else c) t
  let t := scanReplace trySpTabNl (t.length + 1) t
  let t := scanReplace tryNlSpTab (t.length + 1) t
  let t := scanReplace trySpTabRun (t.length + 1) t
  decodeHtmlEntities (trim t)

/-- Whitespace normalisation (`normalizeWhitespace`). -/
def normalizeWhitespace (text : Str) : Str :=
  let t := mapChars (fun c => if c.toNat = 160 then ' ' else c) text
  let t := scanReplace trySpTabNl (t.length + 1) t
  let t := scanReplace tryNlSpTab (t.length + 1) t
  let t := scanReplace tryNlRun (t.length + 1) t
  let t := scanReplace trySpTabRun (t.length + 1) t
  trim t

/-- The `HYPHEN_VARIANTS` class U+2010–U+2014. -/
def isHyphenVariant (c : Char) : Bool :=
  0x2010 ≤ c.toNat && c.toNat ≤ 0x2014

/-- Fold all Unicode hyphen variants to ASCII (`replace(HYPHEN_VARIANTS, '-')`). -/
def foldHyphens (s : Str) : Str :=
  mapChars (fun c => if isHyphenVariant c then '-' else c) s

/-- Left brace character (used in editorial-annotation tests). -/
def lbrace : Char := Char.ofNat 123

/-- Right brace character. -/
def rbrace : Char := Char.ofNat 125

/-- The hyphen class of the article-heading pattern, `[-‑‒–—]`
(ASCII hyphen plus U+2011–U+2014). -/
def isHeadingHyphen (c : Char) : Bool :=
  c = '-' || (0x2011 ≤ c.toNat && c.toNat ≤ 0x2014)

/-- Rewrite for `^Стаття\s+(\d+)\s*\.\s*-\s*(\d+)\s*\.\s*` into
`Стаття $1-$2. `; returns `none` when the pattern does not match. -/
def tryStattiaDotRange (t : Str) : Option Str := do
  let r ← dropLit "Стаття".data t
  let (w1, r1) := spanP isWs r
  if w1.isEmpty then none else
  let (d1, r2) := spanP isDigit r1
  if d1.isEmpty then none else
  let (_, r3) := spanP isWs r2
  match r3 with
  | '.' :: r4 =>
    let (_, r5) := spanP isWs r4
    match r5 with
    | '-' :: r6 =>
      let (_, r7) := spanP isWs r6
      let (d2, r8) := spanP isDigit r7
      if d2.isEmpty then none else
      let (_, r9) := spanP isWs r8
      match r9 with
      | '.' :: r10 =>
        let (_, r11) := spanP isWs r10
        some ("Стаття ".data ++ d1 ++ "-".data ++ d2 ++ ". ".data ++ r11)
      | _ => none
    | _ => none
  | _ => none

/-- Rewrite for `^Стаття\s+(\d+)\s*-\s*(\d+)\s*\.\s*` into `Стаття $1-$2. `. -/
def tryStattiaDashRange (t : Str) : Option Str := do
  let r ← dropLit "Стаття".data t
  let (w1, r1) := spanP isWs r
  if w1.isEmpty then none else
  let (d1, r2) := spanP isDigit r1
  if d1.isEmpty then none else
  let (_, r3) := spanP isWs r2
  match r3 with
  | '-' :: r4 =>
    let (_, r5) := spanP isWs r4
    let (d2, r6) := spanP isDigit r5
    if d2.isEmpty then none else
    let (_, r7) := spanP isWs r6
    match r7 with
    | '.' :: r8 =>
      let (_, r9) := spanP isWs r8
      some ("Стаття ".data ++ d1 ++ "-".data ++ d2 ++ ". ".data ++ r9)
    | _ => none
  | _ => none

/-- The two anchored label-range rewrites applied before heading detection. -/
def preNormalizeHeading (t : Str) : Str :=
  let t1 := (tryStattiaDotRange t).getD t
  (tryStattiaDashRange t1).getD t1

/-- Article-heading matcher
`^Стаття\s+([0-9]+(?:[-‑‒–—][0-9]+)?)\s*\.?\s*(.*)$` (no `m`/`s` flags: the
trailing capture must reach the end of the text without crossing a line
terminator).  Returns the captured section label and trailing heading text. -/
def headingMatch (t : Str) : Option (Str × Str) := do
  let r ← dropLit "Стаття".data t
  let (w1, r1) := spanP isWs r
  if w1.isEmpty then none else
  let (d1, r2) := spanP isDigit r1
  if d1.isEmpty then none else
  let (g, r3) :=
    match r2 with
    | h :: rr =>
      if isHeadingHyphen h then
        let (d2, rr2) := spanP isDigit rr
        if d2.isEmpty then (d1, r2) else (d1 ++ h :: d2, rr2)
      else (d1, r2)
    | [] => (d1, r2)
  let (_, r4) := spanP isWs r3
  let r5 := match r4 with
    | '.' :: rr => rr
    | _ => r4
  let (_, r6) := spanP isWs r5
  if r6.all (fun c => !isLineTerm c) then some (g, r6) else none

/-- Roman-or-digit class `[IVXLC\d]` of the editorial banner patterns. -/
def isRomanOrDigit (c : Char) : Bool :=
  c = 'I' || c = 'V' || c = 'X' || c = 'L' || c = 'C' || isDigit c

/-- Non-article editorial line patterns
`^(\{.*\}|Президент України|Із змінами, внесеними|Розділ\s+[IVXLC\d]+|КНИГА\s+[IVXLC\d]+|м\.\s*Київ|№\s*\d)`. -/
def isEditorialSkip (t : Str) : Bool :=
  (match t with
   | c :: r => c = lbrace && (r.takeWhile (fun x => !isLineTerm x)).contains rbrace
   | [] => false) ||
  (dropLit "Президент України".data t).isSome ||
  (dropLit "Із змінами, внесеними".data t).isSome ||
  (match dropLit "Розділ".data t with
   | some r =>
     let (w, r1) := spanP isWs r
     !w.isEmpty && (match r1 with | c :: _ => isRomanOrDigit c | [] => false)
   | none => false) ||
  (match dropLit "КНИГА".data t with
   | some r =>
     let (w, r1) := spanP isWs r
     !w.isEmpty && (match r1 with | c :: _ => isRomanOrDigit c | [] => false)
   | none => false) ||
  (match dropLit "м.".data t with
   | some r => (dropLit "Київ".data (spanP isWs r).2).isSome
   | none => false) ||
  (match dropLit "№".data t with
   | some r => (match (spanP isWs r).2 with | c :: _ => isDigit c | [] => false)
   | none => false)

/-- Repeal-marker test `/(?:виключено|втратив чинність)/iu`. -/
def repealMarker (hn : Str) : Bool :=
  hasSubCI "виключено".data hn || hasSubCI "втратив чинність".data hn

/-- Strip one leading `{` and one trailing `}` (`replace(/^\{|\}$/g, '')`). -/
def stripEdgeBraces (s : Str) : Str :=
  let s1 := match s with
    | c :: r => if c = lbrace then r else s
    | [] => []
  match s1.getLast? with
  | some c => if c = rbrace then s1.dropLast else s1
  | none => s1

/-- Article finalisation (`buildProvision`). -/
def buildProvision (sec heading : Str) (lines : List Str) : Option ParsedProvision :=
  let headingNormalized := normalizeWhitespace heading
  let content0 := normalizeWhitespace (List.intercalate "\n".data lines)
  let content :=
    if content0.isEmpty && repealMarker headingNormalized then
      trim (stripEdgeBraces headingNormalized)
    else content0
  if content.isEmpty then none
  else
    let normalizedSection := foldHyphens sec
    let provisionRef := "art".data ++ normalizedSection
    let title :=
      if headingNormalized.isEmpty then "Стаття ".data ++ normalizedSection
      else trim ("Стаття ".data ++ normalizedSection ++ ". ".data ++ headingNormalized)
    some ⟨provisionRef, none, normalizedSection, title, content⟩

/-- Close the currently open article, appending its provision if any. -/
def flushCurrent (cur : Option WorkingArticle) (acc : List ParsedProvision) :
    List ParsedProvision :=
  match cur with
  | some w =>
    match buildProvision w.«section» w.heading w.lines with
    | some p => acc ++ [p]
    | none => acc
  | none => acc

/-- One step of the Grammar A paragraph-stream state machine (the body of
the `while` loop of `parseLawPrintHtml`), acting on an already
text-normalised block. -/
def stepBlock (st : Option WorkingArticle × List ParsedProvision) (text : Str) :
    Option WorkingArticle × List ParsedProvision :=
  let (cur, acc) := st
  if text.isEmpty then st
  else if text.head? = some lbrace && text.getLast? = some rbrace then st
  else
    let t := preNormalizeHeading text
    match headingMatch t with
    | some (num, rest) => (some ⟨foldHyphens num, trim rest, []⟩, flushCurrent cur acc)
    | none =>
      match cur with
      | none => st
      | some w =>
        if isEditorialSkip t then st
        else (some ⟨w.«section», w.heading, w.lines ++ [t]⟩, acc)

/-- The whole paragraph stream folded through the state machine, with the
trailing open article flushed. -/
def processBlocks (texts : List Str) : List ParsedProvision :=
  let st := texts.foldl stepBlock (none, [])
  flushCurrent st.1 st.2

/-- Scan of the attribute region of a `div` tag for
`\bid\s*=\s*(?:"article"|'article'|article)(?=[\s>])`; `prev` carries the
preceding character for the word-boundary test (`'v'` of `<div` at the
region start). -/
def scanIdArticle : Char → Str → Bool
  | _, [] => false
  | prev, c :: rest =>
    (!isWord prev &&
      (match dropLitCI "id".data (c :: rest) with
       | some r1 =>
         match (spanP isWs r1).2 with
         | '=' :: r3 =>
           let r4 := (spanP isWs r3).2
           let lookOk : Option Str → Bool := fun r =>
             match r with
             | some [] => true
             | some (x :: _) => isWs x || x = '>'
             | none => false
           lookOk (dropLitCI "\"article\"".data r4) ||
           lookOk (dropLitCI ([Char.ofNat 39] ++ "article".data ++ [Char.ofNat 39]) r4) ||
           lookOk (dropLitCI "article".data r4)
         | _ => false
       | none => false)) ||
    scanIdArticle c rest

/-- Head matcher for the article-container pattern
`<div[^>]*\bid\s*=\s*(?:"article"|'article'|article)(?=[\s>])[^>]*>` — only
the match index is used by `extractArticleArea`. -/
def tryDivArticleTag (s : Str) : Option Unit := do
  let r ← dropLitCI "<div".data s
  let (u, r1) := spanP (· ≠ '>') r
  match r1 with
  | '>' :: _ => if scanIdArticle 'v' u then some () else none
  | _ => none

/-- Publication-section markers after which the article area is cut. -/
def pubMarkers : List Str :=
  ["<h2 class=hdr1>Публікації документа".data,
   "<h2 class=hdr1>Publications of the document".data,
   "<h2 class=hdr1>Публикации документа".data]

/-- Head matcher for `<span[^>]*style="font-size:0px"[^>]*>\s*-\s*<\/span>`
(replaced by a bare hyphen). -/
def trySpanFontSize (s : Str) : Option (Str × Str) := do
  let r ← dropLitCI "<span".data s
  let (u, r1) := spanP (· ≠ '>') r
  match r1 with
  | '>' :: r2 =>
    if hasSubCI "style=\"font-size:0px\"".data u then
      let r3 := (spanP isWs r2).2
      match r3 with
      | '-' :: r4 =>
        (dropLitCI "</span>".data (spanP isWs r4).2).map (·, "-".data)
      | _ => none
    else none
  | _ => none

/-- Attribute-region test for `name="[^"]*"`. -/
def hasNameAttr : Str → Bool
  | [] => false
  | s@(_ :: rest) =>
    (match dropLitCI "name=\"".data s with
     | some r => (spanP (· ≠ '"') r).2.head? = some '"'
     | none => false) ||
    hasNameAttr rest

/-- Head matcher for `<a[^>]*name="[^"]*"[^>]*><\/a>` (removed). -/
def tryANameTag (s : Str) : Option (Str × Str) := do
  let r ← dropLitCI "<a".data s
  let (u, r1) := spanP (· ≠ '>') r
  match r1 with
  | '>' :: r2 =>
    if hasNameAttr u then (dropLitCI "</a>".data r2).map (·, ([] : Str))
    else none
  | _ => none

/-- Locate and pre-clean the article body (`extractArticleArea`); the only
hard failure of the Grammar A parser is the missing container. -/
def extractArticleArea (html : Str) : Except Unit Str :=
  match findFirst tryDivArticleTag (html.length + 1) html 0 with
  | none => .error ()
  | some (idx, _) =>
    let area := substringFrom html idx
    let area :=
      match idxOfSub (pubMarkers.get! 0) area with
      | some i => area.take i
      | none =>
        match idxOfSub (pubMarkers.get! 1) area with
        | some i => area.take i
        | none =>
          match idxOfSub (pubMarkers.get! 2) area with
          | some i => area.take i
          | none => area
    let area := scanReplace trySpanFontSize (area.length + 1) area
    .ok (scanReplace tryANameTag (area.length + 1) area)

/-- Lazy scan for the closing `<\/(?:p|pre)>` of a paragraph block,
returning the inner content and the remainder after the closing tag. -/
def scanParaClose : Nat → Str → Option (Str × Str)
  | 0, _ => none
  | _, [] => none
  | fuel + 1, s@(c :: rest) =>
    match dropLitCI "</p>".data s with
    | some after => some ([], after)
    | none =>
      match dropLitCI "</pre>".data s with
      | some after => some ([], after)
      | none => (scanParaClose fuel rest).map (fun (i, a) => (c :: i, a))

/-- Head matcher for `<(?:p|pre)\b[^>]*>([\s\S]*?)<\/(?:p|pre)>`; the
payload is the inner HTML capture. -/
def tryParaTag (s : Str) : Option (Str × Str) :=
  match s with
  | '<' :: r =>
    let boundaryOk : Str → Bool := fun rr =>
      match rr with
      | [] => true
      | c :: _ => !isWord c
    let afterName : Option Str :=
      match dropLitCI "p".data r with
      | some r1 =>
        if boundaryOk r1 then some r1
        else
          match dropLitCI "re".data r1 with
          | some r2 => if boundaryOk r2 then some r2 else none
          | none => none
      | none => none
    match afterName with
    | some r1 =>
      match (spanP (· ≠ '>') r1).2 with
      | '>' :: content0 =>
        (scanParaClose (content0.length + 1) content0).map (fun (i, a) => (a, i))
      | _ => none
    | none => none
  | _ => none

/-- The inner HTML of every paragraph/preformatted block of the article
area, in document order (the `paragraphRegex` exec loop). -/
def paragraphBlocks (area : Str) : List Str :=
  (matchAll tryParaTag (area.length + 1) area 0).map (fun m => m.2.2)

/-- Definitional-intent test applied to each provision before mining. -/
def isDefinitionArticle (p : ParsedProvision) : Bool :=
  hasSubCI "визначення".data p.title || hasSubCI "термін".data p.title ||
  hasSubCI "терміни вживаються".data p.content ||
  hasSubCI "визначено таким чином".data p.content

/-- Dash separator class `[—-]` of the numbered-definition line pattern. -/
def isDefDash (c : Char) : Bool := c = '—' || c = '-'

/-- Tail `\s*[—-]\s*(.+)$` of the definition-line pattern: greedy
whitespace, a dash, then a non-empty line-terminator-free remainder
(backtracking the inner `\s*` exactly as far as the `.+` requires). -/
def defLineTail (s : Str) : Option Str :=
  match (spanP isWs s).2 with
  | d :: r2 =>
    if isDefDash d then
      if r2.isEmpty then none
      else
        let k := min (r2.takeWhile isWs).length (r2.length - 1)
        let m2 := r2.drop k
        if m2.all (fun c => !isLineTerm c) then some m2 else none
    else none
  | [] => none

/-- Lazy expansion of the bounded term capture `([^;]{2,140}?)` followed by
`defLineTail`; `fuel` is the number of characters the capture may still
absorb. -/
def defGroupGo : Nat → Str → Str → Option (Str × Str)
  | 0, _, _ => none
  | fuel + 1, acc, s =>
    match s with
    | [] => none
    | c :: rest =>
      if c = ';' then none
      else
        let acc' := acc ++ [c]
        if acc'.length ≥ 2 then
          match defLineTail rest with
          | some m2 => some (acc', m2)
          | none => defGroupGo fuel acc' rest
        else defGroupGo fuel acc' rest

/-- Numbered definition-line matcher
`^\s*\d+\s*(?:-\s*\d+)?\)\s*([^;]{2,140}?)\s*[—-]\s*(.+)$`, returning the
raw term and definition captures. -/
def defLineMatch (line : Str) : Option (Str × Str) :=
  let r1 := (spanP isWs line).2
  let (d1, r2) := spanP isDigit r1
  if d1.isEmpty then none
  else
    let r2w := (spanP isWs r2).2
    let r3 :=
      match r2w with
      | '-' :: rr =>
        let (d2, rr2) := spanP isDigit (spanP isWs rr).2
        if d2.isEmpty then r2w else rr2
      | _ => r2w
    match r3 with
    | ')' :: r4 => defGroupGo 140 [] (spanP isWs r4).2
    | _ => none

/-- Quote punctuation trimmed from terms (`replace(/^["'«»]+|["'«»]+$/g, '')`). -/
def isQuotePunct (c : Char) : Bool :=
  c = '"' || c = Char.ofNat 39 || c = '«' || c = '»'

/-- Trim the leading and trailing quote-punctuation runs of a term. -/
def trimQuotes (s : Str) : Str :=
  ((s.dropWhile isQuotePunct).reverse.dropWhile isQuotePunct).reverse

/-- Remove one trailing `;` or `.` (`replace(/[;.]$/, '')`). -/
def dropTrailingPunct (s : Str) : Str :=
  match s.getLast? with
  | some c => if c = ';' || c = '.' then s.dropLast else s
  | none => s

/-- Case-insensitive key used by the per-Act deduplication set. -/
def lowerKey (s : Str) : Str := s.map canon

/-- Term normalisation of `addDefinition`:
`normalizeWhitespace(term).replace(/^["'«»]+|["'«»]+$/g, '')`. -/
def normTerm (term : Str) : Str := trimQuotes (normalizeWhitespace term)

/-- Definition normalisation of `addDefinition`:
`normalizeWhitespace(definition).replace(/[;.]$/, '').trim()`. -/
def normDef (definition : Str) : Str := trim (dropTrailingPunct (normalizeWhitespace definition))

/-- The candidate filter and dedup step (`addDefinition`): normalise the
captures, apply the length filters, then keep only first occurrences of a
case-insensitive term key. -/
def addDefinition (st : List Str × List ParsedDefinition)
    (term definition sourceProvision : Str) : List Str × List ParsedDefinition :=
  let normalizedTerm := normTerm term
  let normalizedDef := normDef definition
  if normalizedTerm.length < 2 || normalizedTerm.length > 160 then st
  else if normalizedDef.length < 8 then st
  else
    let key := lowerKey normalizedTerm
    if st.1.contains key then st
    else (st.1 ++ [key], st.2 ++ [⟨normalizedTerm, normalizedDef, sourceProvision⟩])

/-- Raw term/definition captures mined from one provision (the line loop of
`extractDefinitions`, before `addDefinition`), with the forward-reference
filter `/далі\s*-?/iu` (equivalent to a case-insensitive `далі` test). -/
def provisionCandidates (p : ParsedProvision) : List (Str × Str) :=
  if isDefinitionArticle p then
    (p.content.splitOn '\n').filterMap (fun line =>
      match defLineMatch line with
      | some (m1, m2) =>
        if hasSubCI "далі".data m1 then none else some (m1, m2)
      | none => none)
  else []

/-- Grammar A definition extraction (`extractDefinitions`). -/
def extractDefinitions (provisions : List ParsedProvision) : List ParsedDefinition :=
  (provisions.foldl (fun st p =>
    (provisionCandidates p).foldl
      (fun st c => addDefinition st c.1 c.2 p.provision_ref) st)
    ([], [])).2

/-- The synthesized whole-document fallback provision (reserved section "0"). -/
def fallbackProvision (fullBody : Str) : ParsedProvision :=
  ⟨"art0".data, none, "0".data, "Стаття 0. Текст документа".data, fullBody⟩

/-- Grammar A top level (`parseLawPrintHtml`), restricted to the
provision/definition pipeline; the metadata resolvers do not interact with
it.  Fails exactly where the source throws: missing article container, or
an out-of-range numeric character reference hit by entity decoding. -/
def parseLawPrintHtml (printHtml : Str) (law : TargetLaw) (options : ParseOptions) :
    Except Unit ParsedActContent :=
  match extractArticleArea printHtml with
  | .error e => .error e
  | .ok articleArea =>
    match (paragraphBlocks articleArea).mapM htmlToText with
    | .error e => .error e
    | .ok texts =>
      let streamed := processBlocks texts
      let articlesE : Except Unit (List ParsedProvision) :=
        if streamed.isEmpty then
          match htmlToText articleArea with
          | .error e => .error e
          | .ok body =>
            let fullBody := normalizeWhitespace body
            .ok (if fullBody.isEmpty then [] else [fallbackProvision fullBody])
        else .ok streamed
      match articlesE with
      | .error e => .error e
      | .ok articles =>
        let filteredProvisions :=
          match law.articleFilter with
          | some f => articles.filter (fun p => f.contains p.«section»)
          | none => articles
        let definitions :=
          if options.extractDefinitions? = some false then []
          else extractDefinitions filteredProvisions
        .ok ⟨filteredProvisions, definitions⟩

end Rada

namespace Sejm

open Js

/-- Head matcher for `<[^>]+>` (tag stripping). -/
def tryAnyTag (s : Str) : Option (Str × Str) :=
  match s with
  | '<' :: r =>
    let (inner, r1) := spanP (· ≠ '>') r
    match inner, r1 with
    | [], _ => none
    | _, '>' :: r2 => some (r2, " ".data)
    | _, _ => none
  | _ => none

/-- Head matcher for a fixed literal with a constant replacement. -/
def tryLit (pat rep : Str) (s : Str) : Option (Str × Str) :=
  (dropLit pat s).map (·, rep)

/-- Head matcher for `\s+` collapsed to a single space. -/
def tryWsRun (s : Str) : Option (Str × Str) :=
  let (run, r1) := spanP isWs s
  if run.isEmpty then none else some (r1, " ".data)

/-- Grammar B text flattening (`stripHtml`): tags to spaces, the fixed
entity literals, NBSP, whitespace-run collapse, trim. -/
def stripHtml (html : Str) : Str :=
  let t := scanReplace tryAnyTag (html.length + 1) html
  let t := scanReplace (tryLit "&nbsp;".data " ".data) (t.length + 1) t
  let t := scanReplace (tryLit "&amp;".data "&".data) (t.length + 1) t
  let t := scanReplace (tryLit "&lt;".data "<".data) (t.length + 1) t
  let t := scanReplace (tryLit "&gt;".data ">".data) (t.length + 1) t
  let t := scanReplace (tryLit "&quot;".data "\"".data) (t.length + 1) t
  let t := scanReplace (tryLit "&#39;".data [Char.ofNat 39]) (t.length + 1) t
  let t := scanReplace (tryLit "&shy;".data []) (t.length + 1) t
  let t := mapChars (fun c => if c.toNat = 160 then ' ' else c) t
  let t := scanReplace tryWsRun (t.length + 1) t
  trim t

/-- Scan for the lookahead terminator `(?=<\/h3>|<\/P>)` of the chapter
patterns; the lazy `.*?` before it cannot cross a line terminator.
Returns the suffix at the terminator (the match end). -/
def scanHeadTerm : Nat → Str → Option Str
  | 0, _ => none
  | _, [] => none
  | fuel + 1, s@(c :: rest) =>
    if (dropLitCI "</h3>".data s).isSome || (dropLitCI "</p>".data s).isSome then some s
    else if isLineTerm c then none
    else scanHeadTerm fuel rest

/-- Head matcher for `Rozdzia[łl]\s*&nbsp;\s*(\d+[a-z]?)\s*(.*?)(?=<\/h3>|<\/P>)`
(case-insensitive); the payload is the first capture (the chapter number). -/
def tryRozdzial (s : Str) : Option (Str × Str) := do
  let r ← dropLitCI "rozdzia".data s
  match r with
  | c :: r1 =>
    if canon c = 'ł' || canon c = 'l' then
      let r2 := (spanP isWs r1).2
      let r3 ← dropLitCI "&nbsp;".data r2
      let r4 := (spanP isWs r3).2
      let (d, r5) := spanP isDigit r4
      if d.isEmpty then none
      else
        let (g, r6) :=
          match r5 with
          | x :: xs => if isLower (canon x) then (d ++ [x], xs) else (d, r5)
          | [] => (d, r5)
        let r7 := (spanP isWs r6).2
        (scanHeadTerm (r7.length + 1) r7).map (fun after => (after, g))
    else none
  | [] => none

/-- The `[IVXLCDM]` class under the `i` flag. -/
def isRoman (c : Char) : Bool :=
  canon c = 'i' || canon c = 'v' || canon c = 'x' || canon c = 'l' ||
  canon c = 'c' || canon c = 'd' || canon c = 'm'

/-- Head matcher for `Dzia[łl]\s*&nbsp;\s*([IVXLCDM]+[a-z]?)\s*(.*?)(?=<\/h3>|<\/P>)`. -/
def tryDzial (s : Str) : Option (Str × Str) := do
  let r ← dropLitCI "dzia".data s
  match r with
  | c :: r1 =>
    if canon c = 'ł' || canon c = 'l' then
      let r2 := (spanP isWs r1).2
      let r3 ← dropLitCI "&nbsp;".data r2
      let r4 := (spanP isWs r3).2
      let (d, r5) := spanP isRoman r4
      if d.isEmpty then none
      else
        let (g, r6) :=
          match r5 with
          | x :: xs => if isLower (canon x) then (d ++ [x], xs) else (d, r5)
          | [] => (d, r5)
        let r7 := (spanP isWs r6).2
        (scanHeadTerm (r7.length + 1) r7).map (fun after => (after, g))
    else none
  | [] => none

/-- Lazy scan for `(.*?)<\/SPAN>` (no line terminators), returning the
captured title text. -/
def scanSpanClose : Nat → Str → Option Str
  | 0, _ => none
  | _, [] => none
  | fuel + 1, s@(c :: rest) =>
    if (dropLitCI "</span>".data s).isSome then some []
    else if isLineTerm c then none
    else (scanSpanClose fuel rest).map (c :: ·)

/-- Head matcher for `<SPAN[^>]*class="pro-title-unit"[^>]*>(.*?)<\/SPAN>`. -/
def trySpanTitle (s : Str) : Option Str := do
  let r ← dropLitCI "<span".data s
  let (u, r1) := spanP (· ≠ '>') r
  match r1 with
  | '>' :: r2 =>
    if hasSubCI "class=\"pro-title-unit\"".data u then
      scanSpanClose (r2.length + 1) r2
    else none
  | _ => none

/-- Short-title lookup after a matched chapter marker
(`afterChapter.match(/<SPAN[^>]*class="pro-title-unit"[^>]*>(.*?)<\/SPAN>/i)`,
then `stripHtml`). -/
def chapterTitleAfter (beforeArticle : Str) (e : Nat) : Str :=
  let afterChapter := substringFrom beforeArticle e
  match findFirst trySpanTitle (afterChapter.length + 1) afterChapter 0 with
  | some (_, cap) => stripHtml cap
  | none => []

/-- Format one resolved heading as `Label N - Title` or `Label N`. -/
def formatChapter (label : Str) (num title : Str) : Str :=
  if title.isEmpty then label ++ trim num
  else label ++ trim num ++ " - ".data ++ title

/-- Selection over the bounded window: the last `Rozdział` match wins;
`Dział` is consulted only when no `Rozdział` match exists. -/
def chapterFromWindow (beforeArticle : Str) : Option Str :=
  match (matchAll tryRozdzial (beforeArticle.length + 1) beforeArticle 0).getLast? with
  | some (idx, len, num) =>
    some (formatChapter "Rozdział ".data num (chapterTitleAfter beforeArticle (idx + len)))
  | none =>
    match (matchAll tryDzial (beforeArticle.length + 1) beforeArticle 0).getLast? with
    | some (idx, len, num) =>
      some (formatChapter "Dział ".data num (chapterTitleAfter beforeArticle (idx + len)))
    | none => none

/-- Bounded-lookback chapter resolution (`findChapterHeading`): only the
10,000 characters before the article position are inspected. -/
def findChapterHeading (html : Str) (articlePos : Nat) : Option Str :=
  chapterFromWindow (substring html (articlePos - 10000) articlePos)

/-- The `[a-z_]` class under the `i` flag. -/
def isLowerU (c : Char) : Bool := isLower (canon c) || c = '_'

/-- Test that a tail matches `\d+[a-z_]*` up to the closing quote. -/
def artiTailOk (r : Str) : Bool :=
  let (d, r1) := spanP isDigit r
  !d.isEmpty && r1.all isLowerU

/-- Test that a full `id` attribute value matches `([^"]*-)?arti_(\d+[a-z_]*)`:
an `arti_` segment at the start or after a hyphen, with a digit/letter tail
reaching the end of the value. -/
def idValScan : Option Char → Str → Bool
  | _, [] => false
  | prev, s@(c :: rest) =>
    ((prev = none || prev = some '-') &&
      (match dropLitCI "arti_".data s with
       | some r => artiTailOk r
       | none => false)) ||
    idValScan (some c) rest

/-- First position (case-insensitive) of a literal inside an attribute
region, returning the rest after it. -/
def subSearchCI (pat : Str) : Str → Option Str
  | [] => if pat.isEmpty then some [] else none
  | s@(_ :: rest) =>
    match dropLitCI pat s with
    | some r => some r
    | none => subSearchCI pat rest

/-- Search for `id="<value>"` whose value satisfies `idValScan`, returning
the rest after the closing quote. -/
def idAttrSearch : Str → Option Str
  | [] => none
  | s@(_ :: rest) =>
    match dropLitCI "id=\"".data s with
    | some r =>
      let (v, r1) := spanP (· ≠ '"') r
      match r1 with
      | '"' :: r2 => if idValScan none v then some r2 else idAttrSearch rest
      | _ => idAttrSearch rest
    | none => idAttrSearch rest

/-- Search for `data-id="arti_(\d+[a-z_]*)"`, returning the capture. -/
def dataIdScan : Str → Option Str
  | [] => none
  | s@(_ :: rest) =>
    match dropLitCI "data-id=\"arti_".data s with
    | some r =>
      let (d, r1) := spanP isDigit r
      if d.isEmpty then dataIdScan rest
      else
        let (ls, r2) := spanP isLowerU r1
        match r2 with
        | '"' :: _ => some (d ++ ls)
        | _ => dataIdScan rest
    | none => dataIdScan rest

/-- Head matcher for the article-container pattern
`<div[^>]*class="unit unit_arti[^"]*"[^>]*id="([^"]*-)?arti_(\d+[a-z_]*)"[^>]*data-id="arti_(\d+[a-z_]*)"[^>]*>`.
All pieces live before the first `>` after `<div`, which ends the match.
The payload is the full match text and the `data-id` capture.  (Greedy
backtracking would pick the rightmost eligible `data-id` segment within a
single tag; the scan here takes the leftmost one — the tags produced by the
source portal carry exactly one such segment, and no verified property
depends on the choice.) -/
def tryArtiTag (s : Str) : Option (Str × (Str × Str)) := do
  let r ← dropLitCI "<div".data s
  let (u, r1) := spanP (· ≠ '>') r
  match r1 with
  | '>' :: after =>
    let rest1 ← subSearchCI "class=\"unit unit_arti".data u
    let rest2 := (spanP (· ≠ '"') rest1).2
    match rest2 with
    | '"' :: rest3 => do
      let rest4 ← idAttrSearch rest3
      let cap ← dataIdScan rest4
      let matchLen := s.length - after.length
      some (after, (s.take matchLen, cap))
    | _ => none
  | _ => none

/-- First `/id="([^"]+)"/` capture (case-sensitive) of a tag text, or the
empty string (`?? ''`). -/
def extractIdAttr : Str → Str
  | [] => []
  | s@(_ :: rest) =>
    match dropLit "id=\"".data s with
    | some r =>
      let (v, r1) := spanP (· ≠ '"') r
      match v, r1 with
      | _ :: _, '"' :: _ => v
      | _, _ => extractIdAttr rest
    | none => extractIdAttr rest

/-- Number of (non-overlapping) `arti_` segments in an id attribute. -/
def countArti : Nat → Str → Nat
  | 0, _ => 0
  | _, [] => 0
  | fuel + 1, s@(_ :: rest) =>
    match dropLit "arti_".data s with
    | some r => 1 + countArti fuel r
    | none => countArti fuel rest

/-- Top-level article starts: every container match whose id attribute has
at most one `arti_` segment (nested amendment sub-articles are skipped),
with the position and the `data-id` article number. -/
def articleStarts (html : Str) : List (Nat × Str) :=
  (matchAll tryArtiTag (html.length + 1) html 0).filterMap (fun m =>
    let idAttr := extractIdAttr m.2.2.1
    if countArti (idAttr.length + 1) idAttr > 1 then none else some (m.1, m.2.2.2))

/-- Article starts paired with the next article position (or document end). -/
def articlePairs (html : Str) : List ((Nat × Str) × Nat) :=
  let starts := articleStarts html
  starts.zip ((starts.drop 1).map (·.1) ++ [html.length])

/-- Head matcher for the article-number heading
`<h3[^>]*>\s*<B[^>]*>\s*Art\.?\s*&nbsp;?\s*(\d+[a-z]*)\b`; the payload is
the captured number. -/
def tryArtHeading (s : Str) : Option Str := do
  let r ← dropLitCI "<h3".data s
  match (spanP (· ≠ '>') r).2 with
  | '>' :: r2 =>
    let r3 := (spanP isWs r2).2
    let r4 ← dropLitCI "<b".data r3
    match (spanP (· ≠ '>') r4).2 with
    | '>' :: r6 =>
      let r7 := (spanP isWs r6).2
      let r8 ← dropLitCI "art".data r7
      let r9 := match r8 with
        | '.' :: rr => rr
        | _ => r8
      let r10 := (spanP isWs r9).2
      let r11 := (dropLitCI "&nbsp;".data r10).getD r10
      let r12 := (spanP isWs r11).2
      let (d, r13) := spanP isDigit r12
      if d.isEmpty then none
      else
        let (ls, r14) := spanP (fun c => isLower (canon c)) r13
        match r14 with
        | [] => some (d ++ ls)
        | c :: _ => if isWord c then none else some (d ++ ls)
    | _ => none
  | _ => none

/-- Head matcher for the removable heading
`<h3[^>]*>\s*<B[^>]*>\s*Art\.?\s*&nbsp;?\s*\d+[a-z]*\.?\s*<\/B>\s*<\/h3>`,
returning the rest after the match. -/
def tryArtHeadingFull (s : Str) : Option Str := do
  let r ← dropLitCI "<h3".data s
  match (spanP (· ≠ '>') r).2 with
  | '>' :: r2 =>
    let r3 := (spanP isWs r2).2
    let r4 ← dropLitCI "<b".data r3
    match (spanP (· ≠ '>') r4).2 with
    | '>' :: r6 =>
      let r7 := (spanP isWs r6).2
      let r8 ← dropLitCI "art".data r7
      let r9 := match r8 with
        | '.' :: rr => rr
        | _ => r8
      let r10 := (spanP isWs r9).2
      let r11 := (dropLitCI "&nbsp;".data r10).getD r10
      let r12 := (spanP isWs r11).2
      let (d, r13) := spanP isDigit r12
      if d.isEmpty then none
      else
        let r14 := (spanP (fun c => isLower (canon c)) r13).2
        let r15 := match r14 with
          | '.' :: rr => rr
          | _ => r14
        let r16 := (spanP isWs r15).2
        let r17 ← dropLitCI "</b>".data r16
        dropLitCI "</h3>".data (spanP isWs r17).2
    | _ => none
  | _ => none

/-- Normalised text content of one article span: slice to the next article,
drop the heading element, strip markup. -/
def articleContent (html : Str) (startPos endPos : Nat) : Str :=
  let articleHtml := substring html startPos endPos
  stripHtml (replaceFirst tryArtHeadingFull [] (articleHtml.length + 1) articleHtml)

/-- Definitional-intent keyword test of Grammar B (case-sensitive
`String.prototype.includes`). -/
def keywordHit (content : Str) : Bool :=
  hasSub "ilekro".data content || hasSub "rozumie si".data content ||
  hasSub "oznacza".data content ||
  (hasSub "nale".data content && hasSub "rozumie".data content)

/-- Dash class `[–\-]` of the Grammar B definition patterns
(en dash and ASCII hyphen). -/
def isBDash (c : Char) : Bool := c = '–' || c = '-'

/-- Scan for the lookahead terminator `(?=;\s*\d+\)|$)` of the
numbered-definition pattern; the lazy `.*?` before it cannot cross a line
terminator.  Returns the capture and the suffix at the terminator. -/
def scanNumTerm : Nat → Str → Option (Str × Str)
  | 0, _ => none
  | _, [] => some ([], [])
  | fuel + 1, s@(c :: rest) =>
    if c = ';' &&
        (let r1 := (spanP isWs rest).2
         let (d, r2) := spanP isDigit r1
         !d.isEmpty && r2.head? = some ')') then some ([], s)
    else if isLineTerm c then none
    else (scanNumTerm fuel rest).map (fun (m, a) => (c :: m, a))

/-- Tail `\s+(.*?)(?=;\s*\d+\)|$)` after the separator dash. -/
def numTailAfterDash (r : Str) : Option (Str × Str) :=
  let (w, r1) := spanP isWs r
  if w.isEmpty then none else scanNumTerm (r1.length + 1) r1

/-- Lazy expansion of the term capture `([^–\-]+?)` followed by
`\s+[–\-]` and `numTailAfterDash`; returns term, definition capture and the
suffix at the match end. -/
def numGroupGo : Nat → Str → Str → Option (Str × Str × Str)
  | 0, _, _ => none
  | fuel + 1, acc, s =>
    match s with
    | [] => none
    | c :: rest =>
      if isBDash c then none
      else
        let acc' := acc ++ [c]
        let tailTry : Option (Str × Str) :=
          let (w, r1) := spanP isWs rest
          if w.isEmpty then none
          else
            match r1 with
            | d :: r2 => if isBDash d then numTailAfterDash r2 else none
            | [] => none
        match tailTry with
        | some (m2, after) => some (acc', m2, after)
        | none => numGroupGo fuel acc' rest

/-- Backtracking over the greedy `\s+` after `\d+\)`: the maximal
whitespace run is tried first, then shorter runs (which let the term
capture start inside the whitespace). -/
def numHeadKs (r2 : Str) : Nat → Option (Str × Str × Str)
  | 0 => none
  | k + 1 =>
    match numGroupGo (r2.length + 1) [] (r2.drop (k + 1)) with
    | some res => some res
    | none => numHeadKs r2 k

/-- Head matcher for the numbered-definition pattern
`\d+\)\s+([^–\-]+?)\s+[–\-]\s+(.*?)(?=;\s*\d+\)|$)`;
the payload is the pair of captures. -/
def tryNumberedDef (s : Str) : Option (Str × (Str × Str)) :=
  let (d, r1) := spanP isDigit s
  if d.isEmpty then none
  else
    match r1 with
    | ')' :: r2 =>
      let w := (spanP isWs r2).1.length
      if w = 0 then none
      else (numHeadKs r2 w).map (fun (m1, m2, after) => (after, (m1, m2)))
    | _ => none

/-- Opening-quote class `[„«„]`. -/
def isOpenQuote (c : Char) : Bool := c = '„' || c = '«'

/-- Closing-quote class `["”»]`. -/
def isCloseQuote (c : Char) : Bool := c = '"' || c = '”' || c = '»'

/-- Scan for the lookahead terminator `(?=[;.]\s*[„«„]|[;.]\s*$)` of
the quoted-definition pattern. -/
def scanQuoteTerm : Nat → Str → Option (Str × Str)
  | 0, _ => none
  | _, [] => none
  | fuel + 1, s@(c :: rest) =>
    if (c = ';' || c = '.') &&
        (match (spanP isWs rest).2 with
         | [] => true
         | q :: _ => isOpenQuote q) then some ([], s)
    else if isLineTerm c then none
    else (scanQuoteTerm fuel rest).map (fun (m, a) => (c :: m, a))

/-- Head matcher for the quoted-definition pattern
`[„«„]([^"»”]+)["”»]\s*[–\-]\s*(.*?)(?=[;.]\s*[„«„]|[;.]\s*$)`. -/
def tryQuotedDef (s : Str) : Option (Str × (Str × Str)) :=
  match s with
  | c :: r =>
    if isOpenQuote c then
      let (g, r1) := spanP (fun x => !isCloseQuote x) r
      if g.isEmpty then none
      else
        match r1 with
        | _ :: r2 =>
          match (spanP isWs r2).2 with
          | dch :: r4 =>
            if isBDash dch then
              let r5 := (spanP isWs r4).2
              (scanQuoteTerm (r5.length + 1) r5).map
                (fun (m2, after) => (after, (g, m2)))
            else none
          | [] => none
        | [] => none
    else none
  | [] => none

/-- Remove one trailing `;` or `.` (`replace(/[;.]$/, '')`). -/
def dropTrailingPunct (s : Str) : Str :=
  match s.getLast? with
  | some c => if c = ';' || c = '.' then s.dropLast else s
  | none => s

/-- The acceptance filter applied to each candidate of either pattern
family: `term.length > 1 && term.length < 100 && definition.length > 5`. -/
def acceptDef (sourceProvision term definition : Str) : Option ParsedDefinition :=
  if term.length > 1 && term.length < 100 && definition.length > 5 then
    some ⟨term, definition, sourceProvision⟩
  else none

/-- Grammar B definition extraction (`extractDefinitions` of the Sejm
parser): the numbered pattern family first, then the quoted one, each
through the acceptance filter, with no deduplication. -/
def extractDefinitions (text : Str) (sourceProvision : Str) : List ParsedDefinition :=
  let numbered :=
    (matchAll tryNumberedDef (text.length + 1) text 0).filterMap (fun m =>
      acceptDef sourceProvision (trim m.2.2.1)
        (trim (if m.2.2.2.getLast? = some ';' then m.2.2.2.dropLast else m.2.2.2)))
  let quoted :=
    (matchAll tryQuotedDef (text.length + 1) text 0).filterMap (fun m =>
      acceptDef sourceProvision (trim m.2.2.1) (trim (dropTrailingPunct m.2.2.2)))
  numbered ++ quoted

/-- The article number of one Grammar B article: from the `<h3><B>Art. N`
heading when present, else from the container id (underscores removed). -/
def articleNumB (html : Str) (pr : (Nat × Str) × Nat) : Str :=
  let articleHtml := substring html pr.1.1 pr.2
  match findFirst tryArtHeading (articleHtml.length + 1) articleHtml 0 with
  | some (_, cap) => trim cap
  | none => pr.1.2.filter (· ≠ '_')

/-- Assembly of one Grammar B article from its resolved number, chapter and
raw content: the short-content drop, the 12,000-character cap, and
definition mining for definitional articles. -/
def buildArticleCore (artNum : Str) (chapter : Option Str) (content0 : Str) :
    Option (ParsedProvision × List ParsedDefinition) :=
  let normalizedNum := artNum.filter (· ≠ '_')
  let provisionRef := "art".data ++ normalizedNum
  if content0.length < 5 then none
  else
    let content := if content0.length > 12000 then content0.take 12000 else content0
    let title := "Art. ".data ++ normalizedNum
    let defs :=
      if keywordHit content then extractDefinitions content provisionRef else []
    some (⟨provisionRef, chapter, normalizedNum, title, content⟩, defs)

/-- One article of the Grammar B loop body. -/
def buildArticleB (html : Str) (pr : (Nat × Str) × Nat) :
    Option (ParsedProvision × List ParsedDefinition) :=
  buildArticleCore (articleNumB html pr) (findChapterHeading html pr.1.1)
    (articleContent html pr.1.1 pr.2)

/-- Grammar B top level (`parseUkrainianHtml`), restricted to the
provision/definition pipeline; the remaining `ParsedAct` fields are copied
verbatim from the caller-supplied `ActIndexEntry`. -/
def parseUkrainianHtml (html : Str) : ParsedActContent :=
  let built := (articlePairs html).filterMap (buildArticleB html)
  ⟨built.map (·.1), (built.map (·.2)).flatten⟩

end Sejm

namespace Js

theorem scanReplace_cons_none {f : Str → Option (Str × Str)} {fuel : Nat} {c : Char}
    {rest : Str} (h : f (c :: rest) = none) :
    scanReplace f (fuel + 1) (c :: rest) = c :: scanReplace f fuel rest := by
  simp [scanReplace, h]

theorem scanReplace_cons_some {f : Str → Option (Str × Str)} {fuel : Nat} {c : Char}
    {rest after repl : Str} (h : f (c :: rest) = some (after, repl)) :
    scanReplace f (fuel + 1) (c :: rest) = repl ++ scanReplace f fuel after := by
  simp [scanReplace, h]

theorem scanReplace_nil {f : Str → Option (Str × Str)} {fuel : Nat} :
    scanReplace f fuel [] = [] := by
  cases fuel <;> simp [scanReplace]

theorem scanReplace_rep {f : Str → Option (Str × Str)} {c : Char}
    (h : ∀ r, f (c :: r) = none) :
    ∀ n fuel, n ≤ fuel →
      scanReplace f fuel (List.replicate n c) = List.replicate n c := by
  intro n
  induction n with
  | zero => intro fuel _; simpa using scanReplace_nil
  | succ m ih =>
    intro fuel hle
    match fuel, hle with
    | k + 1, hle =>
      rw [List.replicate_succ, scanReplace_cons_none (h _), ih k (by omega)]

theorem matchAll_nil {f : Str → Option (Str × α)} {fuel idx : Nat} :
    matchAll f fuel ([] : Str) idx = [] := by
  cases fuel <;> simp [matchAll]

theorem matchAll_cons_none {f : Str → Option (Str × α)} {fuel idx : Nat} {c : Char}
    {rest : Str} (h : f (c :: rest) = none) :
    matchAll f (fuel + 1) (c :: rest) idx = matchAll f fuel rest (idx + 1) := by
  simp [matchAll, h]

theorem matchAll_cons_some {f : Str → Option (Str × α)} {fuel idx : Nat} {c : Char}
    {rest after : Str} {a : α} (h : f (c :: rest) = some (after, a)) :
    matchAll f (fuel + 1) (c :: rest) idx =
      (idx, (c :: rest).length - after.length, a) ::
        matchAll f fuel after (idx + ((c :: rest).length - after.length)) := by
  simp [matchAll, h]

theorem matchAll_rep {f : Str → Option (Str × α)} {c : Char}
    (h : ∀ r, f (c :: r) = none) :
    ∀ n fuel idx, matchAll f fuel (List.replicate n c) idx = [] := by
  intro n
  induction n with
  | zero => intro fuel idx; simpa using matchAll_nil
  | succ m ih =>
    intro fuel idx
    match fuel with
    | 0 => simp [matchAll]
    | k + 1 => rw [List.replicate_succ, matchAll_cons_none (h _), ih]

theorem findFirst_nil {f : Str → Option α} {fuel idx : Nat} :
    findFirst f fuel ([] : Str) idx = none := by
  cases fuel <;> simp [findFirst]

theorem findFirst_cons_none {f : Str → Option α} {fuel idx : Nat} {c : Char}
    {rest : Str} (h : f (c :: rest) = none) :
    findFirst f (fuel + 1) (c :: rest) idx = findFirst f fuel rest (idx + 1) := by
  simp [findFirst, h]

theorem findFirst_rep {f : Str → Option α} {c : Char}
    (h : ∀ r, f (c :: r) = none) :
    ∀ n fuel idx, findFirst f fuel (List.replicate n c) idx = none := by
  intro n
  induction n with
  | zero => intro fuel idx; simpa using findFirst_nil
  | succ m ih =>
    intro fuel idx
    match fuel with
    | 0 => simp [findFirst]
    | k + 1 => rw [List.replicate_succ, findFirst_cons_none (h _), ih]

theorem replaceFirst_nil {f : Str → Option Str} {repl : Str} {fuel : Nat} :
    replaceFirst f repl fuel [] = [] := by
  cases fuel <;> simp [replaceFirst]

theorem replaceFirst_cons_none {f : Str → Option Str} {repl : Str} {fuel : Nat}
    {c : Char} {rest : Str} (h : f (c :: rest) = none) :
    replaceFirst f repl (fuel + 1) (c :: rest) = c :: replaceFirst f repl fuel rest := by
  simp [replaceFirst, h]

theorem replaceFirst_rep {f : Str → Option Str} {repl : Str} {c : Char}
    (h : ∀ r, f (c :: r) = none) :
    ∀ n fuel, n ≤ fuel →
      replaceFirst f repl fuel (List.replicate n c) = List.replicate n c := by
  intro n
  induction n with
  | zero => intro fuel _; simpa using replaceFirst_nil
  | succ m ih =>
    intro fuel hle
    match fuel, hle with
    | k + 1, hle =>
      rw [List.replicate_succ, replaceFirst_cons_none (h _), ih k (by omega)]

theorem hasSub_rep {p : Str} {c : Char} (hp : p.isEmpty = false)
    (h : ∀ r, dropLit p (c :: r) = none) :
    ∀ n, hasSub p (List.replicate n c) = false := by
  intro n
  induction n with
  | zero => simp [hasSub, hp]
  | succ m ih => rw [List.replicate_succ]; simp [hasSub, h, ih]

theorem dropLit_ne_head {p : Str} {a : Char} {ps : Str} {c : Char} {r : Str}
    (hp : p = a :: ps) (hne : c ≠ a) : dropLit p (c :: r) = none := by
  subst hp; simp [dropLit, hne]

theorem substring_zero_len (s : Str) : substring s 0 s.length = s := by
  simp [substring]

theorem mem_dropWhile_of_mem {p : Char → Bool} {c : Char} :
    ∀ {l : Str}, c ∈ l → p c = false → c ∈ l.dropWhile p := by
  intro l
  induction l with
  | nil => intro h; cases h
  | cons a t ih =>
    intro hc hp
    by_cases ha : p a
    · rw [List.dropWhile_cons_of_pos ha]
      rcases List.mem_cons.mp hc with rfl | ht
      · rw [ha] at hp; cases hp
      · exact ih ht hp
    · rw [List.dropWhile_cons_of_neg ha]
      exact hc

theorem mem_trim_of_mem {c : Char} {l : Str} (hc : c ∈ l) (hp : isWs c = false) :
    c ∈ trim l := by
  unfold trim
  rw [List.mem_reverse]
  refine mem_dropWhile_of_mem ?_ hp
  rw [List.mem_reverse]
  exact mem_dropWhile_of_mem hc hp

theorem trim_ne_nil_of_mem {c : Char} {l : Str} (hc : c ∈ l) (hp : isWs c = false) :
    trim l ≠ [] :=
  fun h => by simpa [h] using mem_trim_of_mem hc hp

end Js

namespace Rada

theorem buildProvision_ref {sec heading : Str} {lines : List Str} {p : ParsedProvision}
    (h : buildProvision sec heading lines = some p) :
    p.provision_ref = "art".data ++ p.«section» := by
  unfold buildProvision at h
  simp only [] at h
  split at h <;> split at h <;>
    first
      | exact Option.noConfusion h
      | (injection h with h'; subst h'; rfl)

theorem flushCurrent_mem {cur : Option WorkingArticle} {acc : List ParsedProvision}
    {p : ParsedProvision} (h : p ∈ flushCurrent cur acc) :
    p ∈ acc ∨ ∃ s hd ls, buildProvision s hd ls = some p := by
  cases cur with
  | none => exact Or.inl h
  | some w =>
    simp only [flushCurrent] at h
    cases hb : buildProvision w.«section» w.heading w.lines with
    | none => rw [hb] at h; exact Or.inl h
    | some q =>
      rw [hb] at h
      rcases List.mem_append.mp h with h1 | h2
      · exact Or.inl h1
      · simp only [List.mem_singleton] at h2
        subst h2
        exact Or.inr ⟨_, _, _, hb⟩

theorem stepBlock_mem {st : Option WorkingArticle × List ParsedProvision} {t : Str}
    {p : ParsedProvision} (h : p ∈ (stepBlock st t).2) :
    p ∈ st.2 ∨ ∃ s hd ls, buildProvision s hd ls = some p := by
  obtain ⟨cur, acc⟩ := st
  unfold stepBlock at h
  simp only at h
  split at h
  · exact Or.inl h
  · split at h
    · exact Or.inl h
    · split at h
      · exact flushCurrent_mem h
      · split at h
        · exact Or.inl h
        · split at h
          · exact Or.inl h
          · exact Or.inl h

theorem foldl_stepBlock_mem :
    ∀ (texts : List Str) (st : Option WorkingArticle × List ParsedProvision)
      (p : ParsedProvision), p ∈ (texts.foldl stepBlock st).2 →
      p ∈ st.2 ∨ ∃ s hd ls, buildProvision s hd ls = some p := by
  intro texts
  induction texts with
  | nil => intro st p h; exact Or.inl h
  | cons t ts ih =>
    intro st p h
    rcases ih (stepBlock st t) p h with h1 | h2
    · exact stepBlock_mem h1
    · exact Or.inr h2

theorem processBlocks_mem {texts : List Str} {p : ParsedProvision}
    (h : p ∈ processBlocks texts) :
    ∃ s hd ls, buildProvision s hd ls = some p := by
  unfold processBlocks at h
  rcases flushCurrent_mem h with h1 | h2
  · rcases foldl_stepBlock_mem texts (none, []) p h1 with h3 | h4
    · cases h3
    · exact h4
  · exact h2

/-- Every provision of a successful Grammar A parse comes from
`buildProvision` or is the whole-document fallback. -/
theorem parseLawPrintHtml_provisions_origin {html : Str} {law : TargetLaw}
    {options : ParseOptions} {res : ParsedActContent} {p : ParsedProvision}
    (h : parseLawPrintHtml html law options = .ok res) (hp : p ∈ res.provisions) :
    (∃ s hd ls, buildProvision s hd ls = some p) ∨ ∃ b, p = fallbackProvision b := by
  unfold parseLawPrintHtml at h
  split at h
  · cases h
  case _ area harea =>
    split at h
    · cases h
    case _ texts htexts =>
      simp only at h
      split at h
      · cases h
      case _ articles harticles =>
        injection h with h'
        subst h'
        simp only at hp
        have hmem : p ∈ articles := by
          split at hp
          · exact List.mem_of_mem_filter hp
          · exact hp
        split at harticles
        · split at harticles
          · cases harticles
          · injection harticles with h2
            subst h2
            split at hmem
            · cases hmem
            · simp only [List.mem_singleton] at hmem
              exact Or.inr ⟨_, hmem⟩
        · injection harticles with h2
          subst h2
          exact Or.inl (processBlocks_mem hmem)

/-- Shared shape fact: every Grammar A provision satisfies
`provision_ref = "art" ++ section`. -/
theorem parseLawPrintHtml_ref_eq {html : Str} {law : TargetLaw}
    {options : ParseOptions} {res : ParsedActContent} {p : ParsedProvision}
    (h : parseLawPrintHtml html law options = .ok res) (hp : p ∈ res.provisions) :
    p.provision_ref = "art".data ++ p.«section» := by
  rcases parseLawPrintHtml_provisions_origin h hp with ⟨s, hd, ls, hb⟩ | ⟨b, hb⟩
  · exact buildProvision_ref hb
  · subst hb; rfl

end Rada

namespace Sejm

theorem buildArticleCore_shape {artNum : Str} {chapter : Option Str} {content0 : Str}
    {pd : ParsedProvision × List ParsedDefinition}
    (h : buildArticleCore artNum chapter content0 = some pd) :
    pd.1.provision_ref = "art".data ++ pd.1.«section» := by
  unfold buildArticleCore at h
  simp only [] at h
  split at h
  · exact Option.noConfusion h
  · injection h with h2
    subst h2
    rfl

theorem buildArticleCore_of_big {artNum : Str} {chapter : Option Str} {content0 : Str}
    (hbig : content0.length > 12000) :
    ∃ p defs, buildArticleCore artNum chapter content0 = some (p, defs) ∧
      p.content = content0.take 12000 := by
  have h5 : ¬ content0.length < 5 := by omega
  unfold buildArticleCore
  simp only []
  rw [if_neg h5, if_pos hbig]
  exact ⟨_, _, rfl, rfl⟩

theorem buildArticleB_shape {html : Str} {pr : (Nat × Str) × Nat}
    {pd : ParsedProvision × List ParsedDefinition}
    (h : buildArticleB html pr = some pd) :
    pd.1.provision_ref = "art".data ++ pd.1.«section» :=
  buildArticleCore_shape h

theorem buildArticleB_of_big {html : Str} {pr : (Nat × Str) × Nat}
    (hbig : (articleContent html pr.1.1 pr.2).length > 12000) :
    ∃ p defs, buildArticleB html pr = some (p, defs) ∧
      p.content = (articleContent html pr.1.1 pr.2).take 12000 :=
  buildArticleCore_of_big hbig

theorem parseUkrainianHtml_mem {html : Str} {p : ParsedProvision}
    (hp : p ∈ (parseUkrainianHtml html).provisions) :
    ∃ pr ∈ articlePairs html, ∃ defs, buildArticleB html pr = some (p, defs) := by
  unfold parseUkrainianHtml at hp
  simp only [] at hp
  rcases List.mem_map.mp hp with ⟨pd, hmem, rfl⟩
  rcases List.mem_filterMap.mp hmem with ⟨pr, hpr, hb⟩
  exact ⟨pr, hpr, pd.2, hb⟩

theorem parseUkrainianHtml_ref_eq {html : Str} {p : ParsedProvision}
    (hp : p ∈ (parseUkrainianHtml html).provisions) :
    p.provision_ref = "art".data ++ p.«section» := by
  rcases parseUkrainianHtml_mem hp with ⟨pr, _, defs, hb⟩
  exact buildArticleB_shape hb

theorem acceptDef_bounds {sourceProvision t df : Str} {d : ParsedDefinition}
    (h : acceptDef sourceProvision t df = some d) :
    2 ≤ d.term.length ∧ d.term.length ≤ 99 ∧ 6 ≤ d.definition.length := by
  unfold acceptDef at h
  split at h
  · injection h with h2
    subst h2
    rename_i hg
    simp only [Bool.and_eq_true, decide_eq_true_eq] at hg
    refine ⟨?_, ?_, ?_⟩ <;> (dsimp only; omega)
  · exact Option.noConfusion h

theorem extractDefinitions_bounds {text sourceProvision : Str} {d : ParsedDefinition}
    (h : d ∈ extractDefinitions text sourceProvision) :
    2 ≤ d.term.length ∧ d.term.length ≤ 99 ∧ 6 ≤ d.definition.length := by
  unfold extractDefinitions at h
  simp only [] at h
  rcases List.mem_append.mp h with h1 | h1 <;>
  · rcases List.mem_filterMap.mp h1 with ⟨m, _, hm⟩
    exact acceptDef_bounds hm

/-- The resolver is the window selector applied to the 10,000-character
lookback substring. -/
theorem findChapterHeading_eq_window (html : Str) (articlePos : Nat) :
    findChapterHeading html articlePos =
      chapterFromWindow (Js.substring html (articlePos - 10000) articlePos) := rfl

/-- Inside a window, the last `Rozdział` match determines the result. -/
theorem chapterFromWindow_rozdzial_last (w : Str) (idx len : Nat) (num : Str)
    (hlast : (Js.matchAll tryRozdzial (w.length + 1) w 0).getLast? =
      some (idx, len, num)) :
    chapterFromWindow w =
      some (formatChapter "Rozdział ".data num (chapterTitleAfter w (idx + len))) := by
  unfold chapterFromWindow
  rw [hlast]

/-- When no `Rozdział` marker matches in a window, the last `Dział` match
determines the result. -/
theorem chapterFromWindow_dzial_last (w : Str) (idx len : Nat) (num : Str)
    (hroz : Js.matchAll tryRozdzial (w.length + 1) w 0 = [])
    (hlast : (Js.matchAll tryDzial (w.length + 1) w 0).getLast? =
      some (idx, len, num)) :
    chapterFromWindow w =
      some (formatChapter "Dział ".data num (chapterTitleAfter w (idx + len))) := by
  unfold chapterFromWindow
  rw [hroz, hlast]
  rfl

end Sejm

namespace Rada

/-- A raw candidate as fed to `addDefinition`: term and definition captures
plus the source provision reference. -/
def candDef (c : Str × Str × Str) : ParsedDefinition :=
  ⟨normTerm c.1, normDef c.2.1, c.2.2⟩

/-- Acceptance condition of `addDefinition`'s length filters. -/
def candAccepted (c : Str × Str × Str) : Bool :=
  2 ≤ (normTerm c.1).length && (normTerm c.1).length ≤ 160 &&
    8 ≤ (normDef c.2.1).length

/-- Case-insensitive dedup key of an emitted definition. -/
def dkey (d : ParsedDefinition) : Str := lowerKey d.term

/-- Case-insensitive dedup key of a candidate. -/
def ckey (c : Str × Str × Str) : Str := lowerKey (normTerm c.1)

/-- All raw candidates of an Act, flattened in document order. -/
def candidateList (provisions : List ParsedProvision) : List (Str × Str × Str) :=
  (provisions.map (fun p =>
    (provisionCandidates p).map (fun c => (c.1, c.2, p.provision_ref)))).flatten

theorem dkey_candDef (c : Str × Str × Str) : dkey (candDef c) = ckey c := rfl

theorem addDefinition_eq (st : List Str × List ParsedDefinition) (t df sp : Str) :
    addDefinition st t df sp =
      if candAccepted (t, df, sp) then
        if st.1.contains (ckey (t, df, sp)) then st
        else (st.1 ++ [ckey (t, df, sp)], st.2 ++ [candDef (t, df, sp)])
      else st := by
  unfold addDefinition candAccepted candDef ckey
  simp only [Bool.and_eq_true, Bool.or_eq_true, decide_eq_true_eq]
  split_ifs <;> first
    | rfl
    | omega

theorem extractDefinitions_eq_foldl (provisions : List ParsedProvision) :
    extractDefinitions provisions =
      ((candidateList provisions).foldl
        (fun st c => addDefinition st c.1 c.2.1 c.2.2) ([], [])).2 := by
  unfold extractDefinitions candidateList
  rw [List.foldl_flatten]
  simp only [List.foldl_map]

theorem candAccepted_bounds {c : Str × Str × Str} (h : candAccepted c = true) :
    2 ≤ (candDef c).term.length ∧ (candDef c).term.length ≤ 160 ∧
      8 ≤ (candDef c).definition.length := by
  unfold candAccepted at h
  simp only [Bool.and_eq_true, decide_eq_true_eq] at h
  refine ⟨?_, ?_, ?_⟩ <;> (unfold candDef; dsimp only; omega)

section

attribute [local irreducible] normTerm normDef lowerKey candAccepted candDef ckey dkey addDefinition

theorem addFold_invariant :
    ∀ (cs processed : List (Str × Str × Str)) (st : List Str × List ParsedDefinition),
      st.1 = st.2.map dkey →
      st.1.Nodup →
      (∀ d ∈ st.2, ∃ c, ((processed.filter candAccepted).find?
          (fun c => ckey c == dkey d)) = some c ∧ candDef c = d) →
      (∀ k, k ∈ st.1 ↔ ∃ c ∈ processed.filter candAccepted, ckey c = k) →
      ((cs.foldl (fun st c => addDefinition st c.1 c.2.1 c.2.2) st).1 =
        (cs.foldl (fun st c => addDefinition st c.1 c.2.1 c.2.2) st).2.map dkey ∧
       (cs.foldl (fun st c => addDefinition st c.1 c.2.1 c.2.2) st).1.Nodup ∧
       (∀ d ∈ (cs.foldl (fun st c => addDefinition st c.1 c.2.1 c.2.2) st).2,
         ∃ c, (((processed ++ cs).filter candAccepted).find?
           (fun c => ckey c == dkey d)) = some c ∧ candDef c = d) ∧
       (∀ k, k ∈ (cs.foldl (fun st c => addDefinition st c.1 c.2.1 c.2.2) st).1 ↔
         ∃ c ∈ (processed ++ cs).filter candAccepted, ckey c = k)) := by
  intro cs
  induction cs with
  | nil =>
    intro processed st h1 h2 h3 h4
    simp only [List.foldl_nil, List.append_nil]
    exact ⟨h1, h2, h3, h4⟩
  | cons c cs ih =>
    intro processed st h1 h2 h3 h4
    rw [List.foldl_cons]
    have hassoc : processed ++ c :: cs = (processed ++ [c]) ++ cs := by simp
    rw [hassoc]
    rw [addDefinition_eq st c.1 c.2.1 c.2.2]
    by_cases hacc : candAccepted (c.1, c.2.1, c.2.2)
    case neg =>
      rw [if_neg hacc]
      refine ih (processed ++ [c]) st h1 h2 ?_ ?_
      · have : (processed ++ [c]).filter candAccepted = processed.filter candAccepted := by
          rw [List.filter_append]
          simp [List.filter, hacc]
        rw [this]; exact h3
      · have : (processed ++ [c]).filter candAccepted = processed.filter candAccepted := by
          rw [List.filter_append]
          simp [List.filter, hacc]
        rw [this]; exact h4
    case pos =>
      rw [if_pos hacc]
      have hfilter : (processed ++ [c]).filter candAccepted =
          processed.filter candAccepted ++ [c] := by
        rw [List.filter_append]
        simp [List.filter, hacc]
      by_cases hseen : st.1.contains (ckey (c.1, c.2.1, c.2.2))
      case pos =>
        rw [if_pos hseen]
        have hkeymem : ckey (c.1, c.2.1, c.2.2) ∈ st.1 := by
          simpa using hseen
        refine ih (processed ++ [c]) st h1 h2 ?_ ?_
        · intro d hd
          rcases h3 d hd with ⟨c0, hfind, hcd⟩
          refine ⟨c0, ?_, hcd⟩
          rw [hfilter, List.find?_append, hfind]
          rfl
        · intro k
          rw [hfilter]
          constructor
          · intro hk
            rcases (h4 k).mp hk with ⟨c0, hc0, hkey⟩
            exact ⟨c0, by simp [hc0], hkey⟩
          · intro ⟨c0, hc0, hkey⟩
            rcases List.mem_append.mp hc0 with hl | hr
            · exact (h4 k).mpr ⟨c0, hl, hkey⟩
            · simp only [List.mem_singleton] at hr
              subst hr
              subst hkey
              exact hkeymem
      case neg =>
        rw [if_neg hseen]
        have hkeynot : ckey (c.1, c.2.1, c.2.2) ∉ st.1 := by
          simpa using hseen
        refine ih (processed ++ [c])
          (st.1 ++ [ckey (c.1, c.2.1, c.2.2)], st.2 ++ [candDef (c.1, c.2.1, c.2.2)])
          ?_ ?_ ?_ ?_
        · simp only [List.map_append, List.map_cons, List.map_nil]
          rw [← h1, dkey_candDef]
        · simp only [List.nodup_append]
          exact ⟨h2, List.nodup_singleton _, by simpa using hkeynot⟩
        · intro d hd
          rcases List.mem_append.mp hd with hold | hnew
          · rcases h3 d hold with ⟨c0, hfind, hcd⟩
            refine ⟨c0, ?_, hcd⟩
            rw [hfilter, List.find?_append, hfind]
            rfl
          · simp only [List.mem_singleton] at hnew
            subst hnew
            refine ⟨(c.1, c.2.1, c.2.2), ?_, rfl⟩
            rw [hfilter, List.find?_append]
            have hnone : (processed.filter candAccepted).find?
                (fun c0 => ckey c0 == dkey (candDef (c.1, c.2.1, c.2.2))) = none := by
              rw [List.find?_eq_none]
              intro x hx hbeq
              rw [dkey_candDef] at hbeq
              have : ckey x = ckey (c.1, c.2.1, c.2.2) := eq_of_beq hbeq
              exact hkeynot ((h4 _).mpr ⟨x, hx, this⟩)
            rw [hnone]
            simp [List.find?, dkey_candDef]
        · intro k
          constructor
          · intro hk
            rcases List.mem_append.mp hk with hl | hr
            · rcases (h4 k).mp hl with ⟨c0, hc0, hkey⟩
              exact ⟨c0, by rw [hfilter]; simp [hc0], hkey⟩
            · simp only [List.mem_singleton] at hr
              subst hr
              exact ⟨(c.1, c.2.1, c.2.2), by rw [hfilter]; simp, rfl⟩
          · intro ⟨c0, hc0, hkey⟩
            rw [hfilter] at hc0
            rcases List.mem_append.mp hc0 with hl | hr
            · exact List.mem_append.mpr (Or.inl ((h4 k).mpr ⟨c0, hl, hkey⟩))
            · simp only [List.mem_singleton] at hr
              subst hr
              subst hkey
              simp


theorem extractDefinitions_nodup_keys (provisions : List ParsedProvision) :
    ((extractDefinitions provisions).map dkey).Nodup := by
  rw [extractDefinitions_eq_foldl]
  have h := addFold_invariant (candidateList provisions) [] ([], []) rfl List.nodup_nil
    (fun d hd => absurd hd (List.not_mem_nil d)) (by simp)
  rcases h with ⟨h1, h2, _, _⟩
  rw [← h1]
  exact h2

theorem extractDefinitions_first_occurrence (provisions : List ParsedProvision)
    {d : ParsedDefinition} (h : d ∈ extractDefinitions provisions) :
    ∃ c, ((candidateList provisions).filter candAccepted).find?
      (fun c => ckey c == dkey d) = some c ∧ candDef c = d := by
  rw [extractDefinitions_eq_foldl] at h
  have hinv := addFold_invariant (candidateList provisions) [] ([], []) rfl List.nodup_nil
    (fun d hd => absurd hd (List.not_mem_nil d)) (by simp)
  have := hinv.2.2.1 d h
  simpa using this

end

theorem extractDefinitionsA_bounds {provisions : List ParsedProvision}
    {d : ParsedDefinition} (h : d ∈ extractDefinitions provisions) :
    2 ≤ d.term.length ∧ d.term.length ≤ 160 ∧ 8 ≤ d.definition.length := by
  rcases extractDefinitions_first_occurrence provisions h with ⟨c, hfind, hcd⟩
  have hmem := List.mem_of_find?_eq_some hfind
  have hacc := List.of_mem_filter hmem
  have hb := candAccepted_bounds hacc
  rwa [hcd] at hb

end Rada

namespace Js

theorem hasSubCI_head_mem {a : Char} {ps : Str} :
    ∀ {l : Str}, hasSubCI (a :: ps) l = true → ∃ c ∈ l, canon c = canon a := by
  intro l
  induction l with
  | nil => intro h; simp [hasSubCI] at h
  | cons x rest ih =>
    intro h
    unfold hasSubCI at h
    rcases Bool.or_eq_true_iff.mp h with h1 | h2
    · unfold dropLitCI at h1
      split at h1
      · exact ⟨x, List.mem_cons_self x rest, by assumption⟩
      · simp at h1
    · rcases ih h2 with ⟨c, hc, hcanon⟩
      exact ⟨c, List.mem_cons_of_mem x hc, hcanon⟩

theorem canon_ws_ne_v {c : Char} (hws : isWs c = true) : canon c ≠ 'в' := by
  simp only [isWs, Bool.or_eq_true, decide_eq_true_eq, Bool.and_eq_true] at hws
  unfold canon
  split_ifs with h1 h2 h3 h4 h5
  · exfalso; omega
  · exfalso; omega
  · exfalso; omega
  · exfalso; omega
  · exfalso; omega
  · intro hc
    rw [hc] at hws
    revert hws
    decide

end Js

namespace Rada

theorem mem_dropLast_of_ne {c : Char} :
    ∀ {l : Str}, c ∈ l → l.getLast? ≠ some c → c ∈ l.dropLast := by
  intro l
  induction l with
  | nil => intro h; cases h
  | cons a t ih =>
    intro hc hne
    cases t with
    | nil =>
      exfalso
      simp only [List.mem_singleton] at hc
      subst hc
      exact hne rfl
    | cons b t2 =>
      rcases List.mem_cons.mp hc with rfl | hmem
      · simp [List.dropLast]
      · have : (b :: t2).getLast? ≠ some c := by
          simpa [List.getLast?_cons_cons] using hne
        have hin := ih hmem this
        simp [List.dropLast, hin]

theorem mem_stripEdgeBraces {c : Char} {l : Str} (hc : c ∈ l)
    (h1 : c ≠ lbrace) (h2 : c ≠ rbrace) : c ∈ stripEdgeBraces l := by
  unfold stripEdgeBraces
  simp only []
  have hs1 : c ∈ (match l with
      | c0 :: r => if c0 = lbrace then r else l
      | [] => []) := by
    cases l with
    | nil => cases hc
    | cons c0 r =>
      show c ∈ if c0 = lbrace then r else c0 :: r
      by_cases hb : c0 = lbrace
      · rw [if_pos hb]
        rcases List.mem_cons.mp hc with rfl | hmem
        · exact absurd hb h1
        · exact hmem
      · rw [if_neg hb]
        exact hc
  set s1 := (match l with
      | c0 :: r => if c0 = lbrace then r else l
      | [] => []) with hs1def
  cases hlast : s1.getLast? with
  | none => simpa [hlast] using hs1
  | some cl =>
    by_cases hbr : cl = rbrace
    · subst hbr
      simp only [hlast, if_pos rfl]
      refine mem_dropLast_of_ne hs1 ?_
      rw [hlast]
      intro heq
      injection heq with heq2
      exact h2 heq2.symm
    · simp only [hlast, if_neg hbr]
      exact hs1

theorem repealMarker_witness {hn : Str} (h : repealMarker hn = true) :
    ∃ c ∈ hn, Js.canon c = 'в' := by
  unfold repealMarker at h
  rcases Bool.or_eq_true_iff.mp h with h1 | h1
  · have := @Js.hasSubCI_head_mem 'в' ("иключено".data) hn
    simpa using this h1
  · have := @Js.hasSubCI_head_mem 'в' ("тратив чинність".data) hn
    simpa using this h1

theorem repeal_content_ne_nil {hn : Str} (h : repealMarker hn = true) :
    Js.trim (stripEdgeBraces hn) ≠ [] := by
  rcases repealMarker_witness h with ⟨c, hc, hcanon⟩
  have hnw : Js.isWs c = false := by
    by_contra hws
    have : Js.isWs c = true := by
      cases hx : Js.isWs c
      · exact absurd hx hws
      · rfl
    exact Js.canon_ws_ne_v this hcanon
  have hb1 : c ≠ lbrace := by
    intro hx
    rw [hx] at hcanon
    revert hcanon
    decide
  have hb2 : c ≠ rbrace := by
    intro hx
    rw [hx] at hcanon
    revert hcanon
    decide
  exact Js.trim_ne_nil_of_mem (mem_stripEdgeBraces hc hb1 hb2) hnw

end Rada

/-- Injectivity transfer: when every provision satisfies
`provision_ref = "art" ++ section`, distinct sections give distinct refs. -/
theorem refs_nodup_of_sections_nodup {l : List ParsedProvision}
    (h : ∀ p ∈ l, p.provision_ref = "art".data ++ p.«section»)
    (hs : (l.map (fun p => p.«section»)).Nodup) :
    (l.map (fun p => p.provision_ref)).Nodup := by
  have heq : l.map (fun p => p.provision_ref) =
      (l.map (fun p => p.«section»)).map (fun s => "art".data ++ s) := by
    rw [List.map_map]
    exact List.map_congr_left (fun p hp => h p hp)
  rw [heq]
  exact hs.map (fun a b hab => by simpa using hab)

namespace Rada

/-- Grammar A finalization on an empty body: the repeal-marker branch keeps
a non-empty bracket-stripped placeholder, and without a marker the article
is dropped. -/
theorem buildProvision_empty_body (sec heading : Str) (lines : List Str)
    (hempty : normalizeWhitespace (List.intercalate ['\n'] lines) = []) :
    (repealMarker (normalizeWhitespace heading) = true →
      ∃ p, buildProvision sec heading lines = some p ∧
        p.content = Js.trim (stripEdgeBraces (normalizeWhitespace heading)) ∧
        p.content ≠ []) ∧
    (repealMarker (normalizeWhitespace heading) = false →
      buildProvision sec heading lines = none) := by
  constructor
  · intro hmark
    have hne := repeal_content_ne_nil hmark
    have hcond : ((normalizeWhitespace (List.intercalate ['\n'] lines)).isEmpty &&
        repealMarker (normalizeWhitespace heading)) = true := by
      rw [hempty, hmark]
      rfl
    have hcond2 : ¬ ((Js.trim (stripEdgeBraces (normalizeWhitespace heading))).isEmpty = true) := by
      rw [List.isEmpty_iff]
      exact hne
    cases hb : buildProvision sec heading lines with
    | none =>
      exfalso
      unfold buildProvision at hb
      simp only [] at hb
      rw [if_pos hcond, if_neg hcond2] at hb
      exact Option.noConfusion hb
    | some p =>
      unfold buildProvision at hb
      simp only [] at hb
      rw [if_pos hcond, if_neg hcond2] at hb
      injection hb with hb2
      have hpc : p.content = Js.trim (stripEdgeBraces (normalizeWhitespace heading)) := by
        rw [← hb2]
      exact ⟨p, rfl, hpc, hpc ▸ hne⟩
  · intro hmark
    unfold buildProvision
    simp only []
    have hcontent : (if ((normalizeWhitespace (List.intercalate ['\n'] lines)).isEmpty &&
          repealMarker (normalizeWhitespace heading)) = true then
          Js.trim (stripEdgeBraces (normalizeWhitespace heading))
        else normalizeWhitespace (List.intercalate ['\n'] lines)) = [] := by
      rw [if_neg (by rw [hmark]; simp), hempty]
    rw [hcontent]
    simp

/-- Grammar A fallback shape: when the stream yields nothing and the
normalized whole-document body is non-empty, the parse (with no article
filter) returns exactly the synthesized section-0 provision. -/
theorem parseLawPrintHtml_fallback {html area : Str} {texts : List Str} {body : Str}
    (h1 : extractArticleArea html = .ok area)
    (h2 : (paragraphBlocks area).mapM htmlToText = .ok texts)
    (h3 : processBlocks texts = [])
    (h4 : htmlToText area = .ok body)
    (h5 : normalizeWhitespace body ≠ []) (options : ParseOptions) :
    (parseLawPrintHtml html ⟨none⟩ options).map (fun a => a.provisions) =
      .ok [fallbackProvision (normalizeWhitespace body)] := by
  unfold parseLawPrintHtml
  rw [h1]
  dsimp only
  rw [h2]
  dsimp only
  rw [h3]
  simp only [List.isEmpty_nil, if_true]
  rw [h4]
  dsimp only
  rw [if_neg (by rw [List.isEmpty_iff]; exact h5)]
  rfl

end Rada

/-- The Grammar B article container tag of the C9 truncation scenario,
without its leading `<`. -/
def c9tail : Str :=
  "div class=\"unit unit_arti\" id=\"arti_9\" data-id=\"arti_9\">".data

/-- A Grammar B document: one article container followed by 13,000 plain
characters of body text. -/
def c9html : Str := '<' :: (c9tail ++ List.replicate 13000 'a')

theorem c9tail_len : (c9tail : Str).length = 56 := rfl

theorem c9len (n : Nat) :
    (('<' :: (c9tail ++ List.replicate n 'a')) : Str).length = 57 + n := by
  simp only [List.length_cons, List.length_append, List.length_replicate, c9tail_len]
  omega

theorem tryArtiTag_c9 (r : Str) :
    Sejm.tryArtiTag ('<' :: (c9tail ++ r)) =
      some (r, ('<' :: c9tail, "9".data)) := by
  have h0 : Sejm.tryArtiTag ('<' :: (c9tail ++ r)) =
      some (r, (('<' :: (c9tail ++ r)).take
        (('<' :: (c9tail ++ r)).length - r.length), "9".data)) := rfl
  rw [show (('<' :: (c9tail ++ r)) : Str) = ('<' :: c9tail) ++ r from rfl] at h0
  rw [List.length_append, Nat.add_sub_cancel, List.take_left] at h0
  exact h0

theorem tryArtiTag_a (r : Str) : Sejm.tryArtiTag ('a' :: r) = none := rfl

theorem matchAll_arti_c9 (n : Nat) :
    Js.matchAll Sejm.tryArtiTag
      (('<' :: (c9tail ++ List.replicate n 'a')).length + 1)
      ('<' :: (c9tail ++ List.replicate n 'a')) 0 =
      [(0, 57, ('<' :: c9tail, "9".data))] := by
  rw [Js.matchAll_cons_some (tryArtiTag_c9 (List.replicate n 'a')),
    Js.matchAll_rep tryArtiTag_a]
  have hd : (('<' :: (c9tail ++ List.replicate n 'a')) : Str).length -
      (List.replicate n 'a').length = 57 := by
    rw [c9len, List.length_replicate]
    omega
  rw [hd]

theorem articleStarts_c9 (n : Nat) :
    Sejm.articleStarts ('<' :: (c9tail ++ List.replicate n 'a')) =
      [(0, "9".data)] := by
  unfold Sejm.articleStarts
  rw [matchAll_arti_c9]
  decide

theorem articlePairs_c9 (n : Nat) :
    Sejm.articlePairs ('<' :: (c9tail ++ List.replicate n 'a')) =
      [((0, "9".data), ('<' :: (c9tail ++ List.replicate n 'a')).length)] := by
  unfold Sejm.articlePairs
  simp only []
  rw [articleStarts_c9]
  rfl

theorem replaceFirst_prefix_steps {f : Str → Option Str} {repl : Str} :
    ∀ (pre suf : Str) (fuel : Nat), pre.length ≤ fuel →
      (∀ i, i < pre.length → f (pre.drop i ++ suf) = none) →
      Js.replaceFirst f repl fuel (pre ++ suf) =
        pre ++ Js.replaceFirst f repl (fuel - pre.length) suf := by
  intro pre
  induction pre with
  | nil => intro suf fuel _ _; simp
  | cons c p ih =>
    intro suf fuel hle hnone
    match fuel, hle with
    | k + 1, hle =>
      have h0 : f (c :: (p ++ suf)) = none := by
        have h1 := hnone 0 (by simp)
        simpa using h1
      rw [List.cons_append, Js.replaceFirst_cons_none h0]
      have hnone2 : ∀ i, i < p.length → f (p.drop i ++ suf) = none := by
        intro i hi
        have h2 := hnone (i + 1) (by simpa using Nat.succ_lt_succ hi)
        simpa using h2
      have hk : p.length ≤ k := by
        simp only [List.length_cons] at hle
        omega
      rw [ih suf k hk hnone2]
      have harith : k + 1 - (c :: p).length = k - p.length := by
        simp only [List.length_cons]
        omega
      rw [harith, List.cons_append]

theorem tryArtHeadingFull_a (r : Str) : Sejm.tryArtHeadingFull ('a' :: r) = none := rfl

theorem tryArtHeadingFull_c9_drops (n : Nat) :
    ∀ i, i < (('<' :: c9tail) : Str).length →
      Sejm.tryArtHeadingFull ((('<' :: c9tail) : Str).drop i ++ List.replicate n 'a') =
        none := by
  intro i hi
  rw [show (('<' :: c9tail) : Str).length = 57 from rfl] at hi
  interval_cases i <;> rfl

theorem replaceFirst_c9 (n : Nat) :
    Js.replaceFirst Sejm.tryArtHeadingFull []
      (('<' :: (c9tail ++ List.replicate n 'a')).length + 1)
      ('<' :: (c9tail ++ List.replicate n 'a')) =
      '<' :: (c9tail ++ List.replicate n 'a') := by
  have h := @replaceFirst_prefix_steps Sejm.tryArtHeadingFull []
    ('<' :: c9tail) (List.replicate n 'a')
    (('<' :: (c9tail ++ List.replicate n 'a')).length + 1)
    (by rw [c9len]; simp only [List.length_cons, c9tail_len]; omega)
    (tryArtHeadingFull_c9_drops n)
  rw [show ((('<' :: c9tail) : Str) ++ List.replicate n 'a') =
    '<' :: (c9tail ++ List.replicate n 'a') from rfl] at h
  rw [h, Js.replaceFirst_rep tryArtHeadingFull_a n _
    (by rw [c9len]; simp only [List.length_cons, c9tail_len]; omega)]
  rfl

theorem tryAnyTag_c9 (r : Str) :
    Sejm.tryAnyTag ('<' :: (c9tail ++ r)) = some (r, " ".data) := rfl

theorem tryAnyTag_a (r : Str) : Sejm.tryAnyTag ('a' :: r) = none := rfl

theorem scanReplace_space_as (f : Str → Option (Str × Str))
    (h1 : ∀ r, f (' ' :: r) = none) (h2 : ∀ r, f ('a' :: r) = none)
    (n fuel : Nat) (hle : n + 1 ≤ fuel) :
    Js.scanReplace f fuel (' ' :: List.replicate n 'a') =
      ' ' :: List.replicate n 'a' := by
  match fuel, hle with
  | k + 1, hle =>
    rw [Js.scanReplace_cons_none (h1 _), Js.scanReplace_rep h2 n k (by omega)]

theorem spanP_ws_space_rep (n : Nat) :
    Js.spanP Js.isWs (' ' :: List.replicate n 'a') =
      ([' '], List.replicate n 'a') := by
  cases n with
  | zero => rfl
  | succ m =>
    rw [List.replicate_succ]
    rfl

theorem tryWsRun_space_rep (n : Nat) :
    Sejm.tryWsRun (' ' :: List.replicate n 'a') =
      some (List.replicate n 'a', " ".data) := by
  unfold Sejm.tryWsRun
  rw [spanP_ws_space_rep]
  rfl

theorem tryWsRun_a (r : Str) : Sejm.tryWsRun ('a' :: r) = none := rfl

theorem mapChars_space_rep (n : Nat) :
    Js.mapChars (fun c => if c.toNat = 160 then ' ' else c)
      (' ' :: List.replicate n 'a') = ' ' :: List.replicate n 'a' := by
  unfold Js.mapChars
  rw [List.map_cons, List.map_replicate]
  rfl

theorem dropWhile_ws_rep (n : Nat) :
    List.dropWhile Js.isWs (List.replicate n 'a') = List.replicate n 'a' := by
  cases n with
  | zero => rfl
  | succ m => rw [List.replicate_succ, List.dropWhile_cons_of_neg (by decide)]

theorem trim_space_rep (n : Nat) :
    Js.trim (' ' :: List.replicate n 'a') = List.replicate n 'a' := by
  unfold Js.trim
  rw [List.dropWhile_cons_of_pos (by decide), dropWhile_ws_rep,
    List.reverse_replicate, dropWhile_ws_rep, List.reverse_replicate]

theorem stripHtml_c9 (n : Nat) :
    Sejm.stripHtml ('<' :: (c9tail ++ List.replicate n 'a')) =
      List.replicate n 'a' := by
  have hle1 : n ≤ (('<' :: (c9tail ++ List.replicate n 'a')) : Str).length := by
    rw [c9len]; omega
  have hle2 : n + 1 ≤ ((' ' :: List.replicate n 'a') : Str).length + 1 := by
    simp only [List.length_cons, List.length_replicate]
    omega
  have hle3 : n ≤ ((' ' :: List.replicate n 'a') : Str).length := by
    simp only [List.length_cons, List.length_replicate]
    omega
  have h1 : Js.scanReplace Sejm.tryAnyTag
      (('<' :: (c9tail ++ List.replicate n 'a')).length + 1)
      ('<' :: (c9tail ++ List.replicate n 'a')) = ' ' :: List.replicate n 'a' := by
    rw [Js.scanReplace_cons_some (tryAnyTag_c9 (List.replicate n 'a')),
      Js.scanReplace_rep tryAnyTag_a n
        (('<' :: (c9tail ++ List.replicate n 'a')).length) hle1]
    rfl
  have h2 : Js.scanReplace (Sejm.tryLit "&nbsp;".data " ".data)
      ((' ' :: List.replicate n 'a').length + 1) (' ' :: List.replicate n 'a') =
      ' ' :: List.replicate n 'a' :=
    scanReplace_space_as _ (fun r => rfl) (fun r => rfl) n _ hle2
  have h3 : Js.scanReplace (Sejm.tryLit "&amp;".data "&".data)
      ((' ' :: List.replicate n 'a').length + 1) (' ' :: List.replicate n 'a') =
      ' ' :: List.replicate n 'a' :=
    scanReplace_space_as _ (fun r => rfl) (fun r => rfl) n _ hle2
  have h4 : Js.scanReplace (Sejm.tryLit "&lt;".data "<".data)
      ((' ' :: List.replicate n 'a').length + 1) (' ' :: List.replicate n 'a') =
      ' ' :: List.replicate n 'a' :=
    scanReplace_space_as _ (fun r => rfl) (fun r => rfl) n _ hle2
  have h5 : Js.scanReplace (Sejm.tryLit "&gt;".data ">".data)
      ((' ' :: List.replicate n 'a').length + 1) (' ' :: List.replicate n 'a') =
      ' ' :: List.replicate n 'a' :=
    scanReplace_space_as _ (fun r => rfl) (fun r => rfl) n _ hle2
  have h6 : Js.scanReplace (Sejm.tryLit "&quot;".data "\"".data)
      ((' ' :: List.replicate n 'a').length + 1) (' ' :: List.replicate n 'a') =
      ' ' :: List.replicate n 'a' :=
    scanReplace_space_as _ (fun r => rfl) (fun r => rfl) n _ hle2
  have h7 : Js.scanReplace (Sejm.tryLit "&#39;".data [Char.ofNat 39])
      ((' ' :: List.replicate n 'a').length + 1) (' ' :: List.replicate n 'a') =
      ' ' :: List.replicate n 'a' :=
    scanReplace_space_as _ (fun r => rfl) (fun r => rfl) n _ hle2
  have h8 : Js.scanReplace (Sejm.tryLit "&shy;".data [])
      ((' ' :: List.replicate n 'a').length + 1) (' ' :: List.replicate n 'a') =
      ' ' :: List.replicate n 'a' :=
    scanReplace_space_as _ (fun r => rfl) (fun r => rfl) n _ hle2
  have h9 : Js.scanReplace Sejm.tryWsRun
      ((' ' :: List.replicate n 'a').length + 1) (' ' :: List.replicate n 'a') =
      ' ' :: List.replicate n 'a' := by
    rw [Js.scanReplace_cons_some (tryWsRun_space_rep n),
      Js.scanReplace_rep tryWsRun_a n ((' ' :: List.replicate n 'a').length) hle3]
    rfl
  unfold Sejm.stripHtml
  simp only []
  rw [h1, h2, h3, h4, h5, h6, h7, h8, mapChars_space_rep, h9, trim_space_rep]

theorem articleContent_c9 (n : Nat) :
    Sejm.articleContent ('<' :: (c9tail ++ List.replicate n 'a')) 0
      ('<' :: (c9tail ++ List.replicate n 'a')).length =
      List.replicate n 'a' := by
  unfold Sejm.articleContent
  simp only []
  rw [Js.substring_zero_len, replaceFirst_c9 n]
  exact stripHtml_c9 n

theorem parseUkrainianHtml_mem_of_build {html : Str} {pr : (Nat × Str) × Nat}
    {p : ParsedProvision} {defs : List ParsedDefinition}
    (hpr : pr ∈ Sejm.articlePairs html)
    (hb : Sejm.buildArticleB html pr = some (p, defs)) :
    p ∈ (Sejm.parseUkrainianHtml html).provisions := by
  unfold Sejm.parseUkrainianHtml
  simp only []
  exact List.mem_map.mpr ⟨(p, defs), List.mem_filterMap.mpr ⟨pr, hpr, hb⟩, rfl⟩

set_option maxRecDepth 200000

/-- C1 counterexample: the Grammar A heading pattern cannot match across a
line break (`.` does not match line terminators and `$` anchors the end of
the whole block), so a single paragraph block whose normalized text is
"Стаття 5. Heading" + newline + "Body text" is not segmented into an
article; the parse degrades to the section-0 whole-document fallback
instead of the claimed section-5 provision. -/
theorem c1_counterexample :
    (Rada.parseLawPrintHtml
        "<div id=article><p>Стаття 5. Heading<br>Body text</p></div>".data
        ⟨none⟩ ⟨none⟩).map
      (fun a => a.provisions.map (fun p => (p.provision_ref, p.«section»))) =
      .ok [("art0".data, "0".data)] := by
  decide

/-- C1 (amended): the claimed Grammar A round trip holds when the heading
and the body are two separate paragraph blocks: `<p>Стаття 5. Heading</p>`
followed by `<p>Body text</p>` yields exactly one provision with
section "5", provision_ref "art5", title "Стаття 5. Heading" and
content "Body text". -/
theorem c1_roundtrip_two_blocks :
    Rada.parseLawPrintHtml
        "<div id=article><p>Стаття 5. Heading</p><p>Body text</p></div>".data
        ⟨none⟩ ⟨none⟩ =
      .ok ⟨[⟨"art5".data, none, "5".data, "Стаття 5. Heading".data, "Body text".data⟩],
           []⟩ := by
  decide

/-- C2 counterexample: the Grammar B extractor accepts a definition of
length 6 (its filter is `definition.length > 5`, not `≥ 8`): the text
"1) ab - cdefgh" emits the pair (term "ab", definition "cdefgh"), whose
definition length 6 violates the claimed lower bound of 8. -/
theorem c2_counterexample :
    Sejm.extractDefinitions "1) ab - cdefgh".data "art1".data =
      [⟨"ab".data, "cdefgh".data, "art1".data⟩] ∧
    ("cdefgh".data).length = 6 := by
  decide

/-- C2 (amended): Grammar A's `addDefinition` enforces term length 2–160
after quote trimming and definition length ≥ 8 after punctuation trimming,
exactly as claimed; Grammar B's extractor instead enforces term length
2–99 and definition length ≥ 6. -/
theorem c2_length_bounds :
    (∀ (provisions : List ParsedProvision) (d : ParsedDefinition),
      d ∈ Rada.extractDefinitions provisions →
      2 ≤ d.term.length ∧ d.term.length ≤ 160 ∧ 8 ≤ d.definition.length) ∧
    (∀ (text sourceProvision : Str) (d : ParsedDefinition),
      d ∈ Sejm.extractDefinitions text sourceProvision →
      2 ≤ d.term.length ∧ d.term.length ≤ 99 ∧ 6 ≤ d.definition.length) :=
  ⟨fun _ _ h => Rada.extractDefinitionsA_bounds h,
   fun _ _ _ h => Sejm.extractDefinitions_bounds h⟩

/-- C2 witness: the bounds evaluated on one emitted definition of each
grammar. -/
theorem c2_length_bounds_witness :
    (2 ≤ ("дані".data : Str).length ∧ ("дані".data : Str).length ≤ 160 ∧
      8 ≤ ("відомості про особу".data : Str).length) ∧
    (2 ≤ ("ab".data : Str).length ∧ ("ab".data : Str).length ≤ 99 ∧
      6 ≤ ("cdefghij".data : Str).length) :=
  ⟨c2_length_bounds.1
      [⟨"art1".data, none, "1".data, "Стаття 1. Визначення термінів".data,
        "1) дані — відомості про особу;".data⟩]
      ⟨"дані".data, "відомості про особу".data, "art1".data⟩ (by decide),
   c2_length_bounds.2 "1) ab - cdefghij".data "art9".data
      ⟨"ab".data, "cdefghij".data, "art9".data⟩ (by decide)⟩

/-- C3 counterexample: Grammar B performs no deduplication: a text whose
numbered list defines "Ab" and then "aB" emits two definitions whose terms
are equal case-insensitively, contradicting the claimed per-Act
case-insensitive uniqueness for "either grammar". -/
theorem c3_counterexample :
    (Sejm.extractDefinitions "1) Ab - cdefghij; 2) aB - zzzzzzzz".data "art1".data).map
        (fun d => d.term) = ["Ab".data, "aB".data] ∧
    (Sejm.extractDefinitions "1) Ab - cdefghij; 2) aB - zzzzzzzz".data "art1".data).map
        (fun d => Rada.lowerKey d.term) = ["ab".data, "ab".data] ∧
    ¬ (["ab".data, "ab".data] : List Str).Nodup := by
  refine ⟨by decide, by decide, ?_⟩
  intro h
  simp at h

/-- C3 (amended): the claimed invariant holds for Grammar A: the emitted
terms are pairwise distinct under the case-insensitive key, and every
emitted definition is the normalisation of the first accepted candidate
with its key in document order (hence attributed to the first provision
encountered); Grammar B emits every accepted candidate without
deduplication. -/
theorem c3_dedup_first_wins_grammarA (provisions : List ParsedProvision) :
    ((Rada.extractDefinitions provisions).map Rada.dkey).Nodup ∧
    (∀ d ∈ Rada.extractDefinitions provisions,
      ∃ c, ((Rada.candidateList provisions).filter Rada.candAccepted).find?
          (fun c => Rada.ckey c == Rada.dkey d) = some c ∧ Rada.candDef c = d) :=
  ⟨Rada.extractDefinitions_nodup_keys provisions,
   fun _ hd => Rada.extractDefinitions_first_occurrence provisions hd⟩

/-- C3 witness: the dedup evaluated on an Act whose definition article
repeats a term with different case; one definition survives, normalised
from the first candidate. -/
theorem c3_dedup_first_wins_grammarA_witness :
    ((Rada.extractDefinitions
        [⟨"art1".data, none, "1".data, "Стаття 1. Визначення термінів".data,
          "1) дані — відомості про особу;\n2) ДАНІ — інші положення закону;".data⟩]).map
        Rada.dkey).Nodup ∧
    (∃ c, ((Rada.candidateList
        [⟨"art1".data, none, "1".data, "Стаття 1. Визначення термінів".data,
          "1) дані — відомості про особу;\n2) ДАНІ — інші положення закону;".data⟩]).filter
          Rada.candAccepted).find?
        (fun c => Rada.ckey c ==
          Rada.dkey ⟨"дані".data, "відомості про особу".data, "art1".data⟩) = some c ∧
      Rada.candDef c = ⟨"дані".data, "відомості про особу".data, "art1".data⟩) :=
  ⟨(c3_dedup_first_wins_grammarA _).1,
   (c3_dedup_first_wins_grammarA _).2 _ (by decide)⟩

/-- C4: the guard `Number.isFinite(cp)` in `decodeHtmlEntities` never
fires for a parsed digit run, so `String.fromCodePoint` throws on numeric
character references beyond U+10FFFF: with the article container present,
the input containing `&#1114112;` makes `parseLawPrintHtml` raise instead
of resolving to some text as documented. -/
theorem c4_numeric_reference_throws :
    Rada.extractArticleArea "<div id=article><p>&#1114112;</p></div>".data =
      .ok "<div id=article><p>&#1114112;</p></div>".data ∧
    Rada.parseLawPrintHtml "<div id=article><p>&#1114112;</p></div>".data ⟨none⟩ ⟨none⟩ =
      .error () := by
  decide

/-- C5 counterexample: neither parser deduplicates repeated article
numbers: a Grammar A document with two "Стаття 5" headings yields two
provisions with the same provision_ref "art5". -/
theorem c5_counterexample :
    (Rada.parseLawPrintHtml
        "<div id=article><p>Стаття 5. A</p><p>x1</p><p>Стаття 5. B</p><p>x2</p></div>".data
        ⟨none⟩ ⟨none⟩).map (fun a => a.provisions.map (fun p => p.provision_ref)) =
      .ok ["art5".data, "art5".data] ∧
    ¬ (["art5".data, "art5".data] : List Str).Nodup := by
  refine ⟨by decide, ?_⟩
  intro h
  simp at h

/-- C5 (amended): every provision of either parser satisfies
`provision_ref = "art" ++ section`, so provision_refs are pairwise
distinct whenever the section numbers are; an input repeating an article
number yields duplicated refs. -/
theorem c5_refs_distinct_of_sections (html : Str) :
    (∀ (law : Rada.TargetLaw) (options : Rada.ParseOptions) (res : ParsedActContent),
      Rada.parseLawPrintHtml html law options = .ok res →
      (res.provisions.map (fun p => p.«section»)).Nodup →
      (res.provisions.map (fun p => p.provision_ref)).Nodup) ∧
    (((Sejm.parseUkrainianHtml html).provisions.map (fun p => p.«section»)).Nodup →
      ((Sejm.parseUkrainianHtml html).provisions.map (fun p => p.provision_ref)).Nodup) := by
  constructor
  · intro law options res h hs
    exact refs_nodup_of_sections_nodup
      (fun p hp => Rada.parseLawPrintHtml_ref_eq h hp) hs
  · intro hs
    exact refs_nodup_of_sections_nodup
      (fun p hp => Sejm.parseUkrainianHtml_ref_eq hp) hs

/-- C5 witness: distinct-section inputs evaluated through both parsers. -/
theorem c5_refs_distinct_of_sections_witness :
    (([⟨"art1".data, none, "1".data, "Стаття 1. A".data, "b1x".data⟩,
       ⟨"art2".data, none, "2".data, "Стаття 2. B".data, "b2x".data⟩] :
        List ParsedProvision).map (fun p => p.provision_ref)).Nodup ∧
    (((Sejm.parseUkrainianHtml
        "<div class=\"unit unit_arti\" id=\"arti_3\" data-id=\"arti_3\">seven chars body</div>".data).provisions.map
        (fun p => p.provision_ref)).Nodup) :=
  ⟨(c5_refs_distinct_of_sections
      "<div id=article><p>Стаття 1. A</p><p>b1x</p><p>Стаття 2. B</p><p>b2x</p></div>".data).1
      ⟨none⟩ ⟨none⟩
      ⟨[⟨"art1".data, none, "1".data, "Стаття 1. A".data, "b1x".data⟩,
        ⟨"art2".data, none, "2".data, "Стаття 2. B".data, "b2x".data⟩], []⟩
      (by decide) (by decide),
   (c5_refs_distinct_of_sections
      "<div class=\"unit unit_arti\" id=\"arti_3\" data-id=\"arti_3\">seven chars body</div>".data).2
      (by decide)⟩

/-- C6: in Grammar A finalization with an empty joined body, a normalized
heading matching a repeal marker yields a provision whose content is the
brace-stripped trimmed heading and is non-empty; with no marker the
article is dropped (`none`), not an error. -/
theorem c6_repealed_placeholder (sec heading : Str) (lines : List Str)
    (hempty : Rada.normalizeWhitespace (List.intercalate ['\n'] lines) = []) :
    (Rada.repealMarker (Rada.normalizeWhitespace heading) = true →
      ∃ p, Rada.buildProvision sec heading lines = some p ∧
        p.content = Js.trim (Rada.stripEdgeBraces (Rada.normalizeWhitespace heading)) ∧
        p.content ≠ []) ∧
    (Rada.repealMarker (Rada.normalizeWhitespace heading) = false →
      Rada.buildProvision sec heading lines = none) :=
  Rada.buildProvision_empty_body sec heading lines hempty

/-- C6 witness: a braced repeal heading with no body keeps its stripped
placeholder, and a marker-free heading with no body is dropped. -/
theorem c6_repealed_placeholder_witness :
    (∃ p, Rada.buildProvision "7".data "\x7bСтаттю виключено\x7d".data [] = some p ∧
      p.content = Js.trim (Rada.stripEdgeBraces
        (Rada.normalizeWhitespace "\x7bСтаттю виключено\x7d".data)) ∧
      p.content ≠ []) ∧
    Rada.buildProvision "8".data "Некоректний заголовок".data [] = none :=
  ⟨(c6_repealed_placeholder "7".data "\x7bСтаттю виключено\x7d".data [] (by decide)).1
      (by decide),
   (c6_repealed_placeholder "8".data "Некоректний заголовок".data [] (by decide)).2
      (by decide)⟩

/-- C7 counterexample: an input with a valid but empty article container
has an empty normalized body, so the whole-document fallback is skipped
and the parse returns an empty provision list — contradicting the claim
that such inputs never produce an empty list. -/
theorem c7_counterexample :
    Rada.parseLawPrintHtml "<div id=article></div>".data ⟨none⟩ ⟨none⟩ =
      .ok ⟨[], []⟩ := by
  decide

/-- C7 (amended): when zero provisions survive the Grammar A stream, the
article container is present, the normalized whole-document body is
non-empty, and no article filter is supplied, the parse returns exactly
one synthesized provision: the section-0 fallback whose content is the
whole normalized body. -/
theorem c7_fallback_provision {html area body : Str} {texts : List Str}
    (h1 : Rada.extractArticleArea html = .ok area)
    (h2 : (Rada.paragraphBlocks area).mapM Rada.htmlToText = .ok texts)
    (h3 : Rada.processBlocks texts = [])
    (h4 : Rada.htmlToText area = .ok body)
    (h5 : Rada.normalizeWhitespace body ≠ []) (options : Rada.ParseOptions) :
    (Rada.parseLawPrintHtml html ⟨none⟩ options).map (fun a => a.provisions) =
      .ok [Rada.fallbackProvision (Rada.normalizeWhitespace body)] :=
  Rada.parseLawPrintHtml_fallback h1 h2 h3 h4 h5 options

/-- C7 witness: the fallback evaluated on a container with body text but
no article headings. -/
theorem c7_fallback_provision_witness :
    (Rada.parseLawPrintHtml "<div id=article><p>just plain body words</p></div>".data
        ⟨none⟩ ⟨none⟩).map (fun a => a.provisions) =
      .ok [Rada.fallbackProvision
        (Rada.normalizeWhitespace "just plain body words".data)] :=
  @c7_fallback_provision
    "<div id=article><p>just plain body words</p></div>".data
    "<div id=article><p>just plain body words</p></div>".data
    "just plain body words".data
    ["just plain body words".data]
    (by decide) (by decide) (by decide) (by decide) (by decide) ⟨none⟩

/-- C8 counterexample: both heading vocabularies appear in the lookback
window, with the `Dział` marker strictly after the `Rozdział` marker, yet
the resolver returns the `Rozdział` heading: the chapter vocabulary
pre-empts the division vocabulary instead of the overall last marker
winning. -/
theorem c8_counterexample :
    Sejm.findChapterHeading
      "Rozdział&nbsp;1 Tytuł</h3>xx Dział&nbsp;II Postanowienia</h3><div>".data 64 =
      some "Rozdział 1".data ∧
    Sejm.findChapterHeading
      "Rozdział&nbsp;1 Tytuł</h3>xx Dział&nbsp;II Postanowienia</h3><div>".data 64 ≠
      some "Dział II".data := by
  refine ⟨by decide, ?_⟩
  intro h
  rw [show Sejm.findChapterHeading
      "Rozdział&nbsp;1 Tytuł</h3>xx Dział&nbsp;II Postanowienia</h3><div>".data 64 =
      some "Rozdział 1".data from by decide] at h
  injection h with h2
  exact absurd h2 (by decide)

/-- C8 (amended): the resolver reads only the fixed 10,000-character
window before the position (markers outside it can never influence the
result); inside the window the last `Rozdział` match wins, and the
`Dział` vocabulary is consulted — its last match winning — only when no
`Rozdział` marker matches in the window; the result is formatted as
`Label N - Title` when a title span follows and `Label N` otherwise
(via `formatChapter`/`chapterTitleAfter`). -/
theorem c8_window_policy :
    (∀ (h1 h2 : Str) (p1 p2 : Nat),
      Js.substring h1 (p1 - 10000) p1 = Js.substring h2 (p2 - 10000) p2 →
      Sejm.findChapterHeading h1 p1 = Sejm.findChapterHeading h2 p2) ∧
    (∀ (html : Str) (pos idx len : Nat) (num : Str),
      (Js.matchAll Sejm.tryRozdzial ((Js.substring html (pos - 10000) pos).length + 1)
          (Js.substring html (pos - 10000) pos) 0).getLast? = some (idx, len, num) →
      Sejm.findChapterHeading html pos =
        some (Sejm.formatChapter "Rozdział ".data num
          (Sejm.chapterTitleAfter (Js.substring html (pos - 10000) pos) (idx + len)))) ∧
    (∀ (html : Str) (pos idx len : Nat) (num : Str),
      Js.matchAll Sejm.tryRozdzial ((Js.substring html (pos - 10000) pos).length + 1)
          (Js.substring html (pos - 10000) pos) 0 = [] →
      (Js.matchAll Sejm.tryDzial ((Js.substring html (pos - 10000) pos).length + 1)
          (Js.substring html (pos - 10000) pos) 0).getLast? = some (idx, len, num) →
      Sejm.findChapterHeading html pos =
        some (Sejm.formatChapter "Dział ".data num
          (Sejm.chapterTitleAfter (Js.substring html (pos - 10000) pos) (idx + len)))) := by
  refine ⟨?_, ?_, ?_⟩
  · intro h1 h2 p1 p2 heq
    exact congrArg Sejm.chapterFromWindow heq
  · intro html pos idx len num hlast
    exact (Sejm.findChapterHeading_eq_window html pos).trans
      (Sejm.chapterFromWindow_rozdzial_last _ idx len num hlast)
  · intro html pos idx len num hroz hlast
    exact (Sejm.findChapterHeading_eq_window html pos).trans
      (Sejm.chapterFromWindow_dzial_last _ idx len num hroz hlast)

/-- C8 witness: the three policies evaluated on concrete windows. -/
theorem c8_window_policy_witness :
    Sejm.findChapterHeading "abcdeXYZ".data 5 = Sejm.findChapterHeading "abcdeQQQ".data 5 ∧
    Sejm.findChapterHeading "Rozdział&nbsp;7 tyt</h3>x".data 25 =
      some (Sejm.formatChapter "Rozdział ".data "7".data
        (Sejm.chapterTitleAfter (Js.substring "Rozdział&nbsp;7 tyt</h3>x".data 0 25) 19)) ∧
    Sejm.findChapterHeading "Dział&nbsp;IV tyt</h3>x".data 23 =
      some (Sejm.formatChapter "Dział ".data "IV".data
        (Sejm.chapterTitleAfter (Js.substring "Dział&nbsp;IV tyt</h3>x".data 0 23) 17)) :=
  ⟨c8_window_policy.1 "abcdeXYZ".data "abcdeQQQ".data 5 5 (by decide),
   c8_window_policy.2.1 "Rozdział&nbsp;7 tyt</h3>x".data 25 0 19 "7".data (by decide),
   c8_window_policy.2.2 "Dział&nbsp;IV tyt</h3>x".data 23 0 17 "IV".data (by decide)
     (by decide)⟩

/-- C9: in Grammar B, for every retained article whose normalized content
exceeds 12,000 characters, the loop emits the provision without failing
(`buildArticleB` returns `some`), its `content` is exactly the first
12,000 characters of the normalized content (length exactly 12,000), and
the provision appears in the parse result. -/
theorem c9_truncation (html : Str) (pr : (Nat × Str) × Nat)
    (hpr : pr ∈ Sejm.articlePairs html)
    (hbig : (Sejm.articleContent html pr.1.1 pr.2).length > 12000) :
    ∃ p defs, Sejm.buildArticleB html pr = some (p, defs) ∧
      p.content = (Sejm.articleContent html pr.1.1 pr.2).take 12000 ∧
      p.content.length = 12000 ∧
      p ∈ (Sejm.parseUkrainianHtml html).provisions := by
  rcases Sejm.buildArticleB_of_big hbig with ⟨p, defs, hb, hc⟩
  refine ⟨p, defs, hb, hc, ?_, parseUkrainianHtml_mem_of_build hpr hb⟩
  rw [hc, List.length_take]
  omega

/-- C9 witness: a document with one article container followed by 13,000
body characters; the emitted provision exists and is truncated to exactly
12,000 characters. -/
theorem c9_truncation_witness :
    ((0, "9".data), c9html.length) ∈ Sejm.articlePairs c9html ∧
    (Sejm.articleContent c9html 0 c9html.length).length > 12000 ∧
    ∃ p defs,
      Sejm.buildArticleB c9html ((0, "9".data), c9html.length) = some (p, defs) ∧
      p.content = (Sejm.articleContent c9html 0 c9html.length).take 12000 ∧
      p.content.length = 12000 ∧
      p ∈ (Sejm.parseUkrainianHtml c9html).provisions := by
  have hpr : (((0, "9".data), c9html.length) : (Nat × Str) × Nat) ∈
      Sejm.articlePairs c9html := by
    rw [show c9html = '<' :: (c9tail ++ List.replicate 13000 'a') from rfl,
      articlePairs_c9]
    exact List.mem_singleton.mpr rfl
  have hbig : (Sejm.articleContent c9html 0 c9html.length).length > 12000 := by
    rw [show c9html = '<' :: (c9tail ++ List.replicate 13000 'a') from rfl,
      articleContent_c9, List.length_replicate]
    omega
  exact ⟨hpr, hbig, c9_truncation c9html ((0, "9".data), c9html.length) hpr hbig⟩

/-- C10: every provision emitted by either parser — including the Grammar A
whole-document fallback provision — has `provision_ref` equal to the string
`"art"` concatenated with the provision's `section` field. -/
theorem c10_ref_eq_art_section :
    (∀ (html : Str) (law : Rada.TargetLaw) (options : Rada.ParseOptions)
       (res : ParsedActContent) (p : ParsedProvision),
       Rada.parseLawPrintHtml html law options = .ok res → p ∈ res.provisions →
       p.provision_ref = "art".data ++ p.«section») ∧
    (∀ (html : Str) (p : ParsedProvision),
       p ∈ (Sejm.parseUkrainianHtml html).provisions →
       p.provision_ref = "art".data ++ p.«section») :=
  ⟨fun _ _ _ _ _ h hp => Rada.parseLawPrintHtml_ref_eq h hp,
   fun _ _ hp => Sejm.parseUkrainianHtml_ref_eq hp⟩

/-- C10 witness: the invariant applied to one concrete parse of each
grammar — a Grammar A whole-document fallback provision and a Grammar B
container article. -/
theorem c10_ref_eq_art_section_witness :
    Rada.parseLawPrintHtml "<div id=article><p>plain body here</p></div>".data
        ⟨none⟩ ⟨none⟩ =
      .ok ⟨[⟨"art0".data, none, "0".data, "Стаття 0. Текст документа".data,
        "plain body here".data⟩], []⟩ ∧
    (⟨"art0".data, none, "0".data, "Стаття 0. Текст документа".data,
        "plain body here".data⟩ : ParsedProvision).provision_ref =
      "art".data ++ "0".data ∧
    (⟨"art3".data, none, "3".data, "Art. 3".data, "seven chars body".data⟩ :
        ParsedProvision) ∈
      (Sejm.parseUkrainianHtml
        "<div class=\"unit unit_arti\" id=\"arti_3\" data-id=\"arti_3\">seven chars body</div>".data).provisions ∧
    (⟨"art3".data, none, "3".data, "Art. 3".data, "seven chars body".data⟩ :
        ParsedProvision).provision_ref = "art".data ++ "3".data := by
  refine ⟨by decide, ?_, by decide, ?_⟩
  · exact c10_ref_eq_art_section.1
      "<div id=article><p>plain body here</p></div>".data ⟨none⟩ ⟨none⟩
      ⟨[⟨"art0".data, none, "0".data, "Стаття 0. Текст документа".data,
        "plain body here".data⟩], []⟩
      ⟨"art0".data, none, "0".data, "Стаття 0. Текст документа".data,
        "plain body here".data⟩
      (by decide) (by decide)
  · exact c10_ref_eq_art_section.2
      "<div class=\"unit unit_arti\" id=\"arti_3\" data-id=\"arti_3\">seven chars body</div>".data
      ⟨"art3".data, none, "3".data, "Art. 3".data, "seven chars body".data⟩
      (by decide)
